import Mathlib

/-!
# Verification of the evergreen-notetaker pipeline

Shallow embedding of the resumable three-phase note pipeline:
the data model (`src/types.ts`), the orchestrator
(`processBookWithGrok` in `src/services/grokService.ts`, whose control flow is
shared verbatim with `processBookWithGemini` in `src/services/geminiService.ts`
and the per-note variant in `src/unnamed/part_001`), the retry wrappers
(`callGrokWithRetries`, `callGeminiWithRetries`), the response parsers
(`safeParseJsonResponse` in `grokService.ts` and in `src/unnamed/part_001`),
and the presentation-layer cross-reference resolution
(`NetworkGraph` link building and `App.handleSelectNoteByTitle`).

Network calls are modelled by an oracle (`Gateway`) giving the outcome of each
model call; a run of the orchestrator produces the ordered trace of progress
updates and phase calls it performs together with its thrown-or-returned
result.  The persisted session is the left fold of the emitted partial updates
over the initial session, exactly as `App.handleProgress` merges them
(`setSession(prev => (...prev, ...update))`).
-/

/-! ## Data model (src/types.ts) -/

/-- Model of `ProcessingStatus` from src/types.ts. -/
inductive Status where
  | idle
  | processing
  | completed
  | error
deriving DecidableEq, Repr

/-- Model of `Note` from src/types.ts. -/
structure Note where
  id : String
  title : String
  content : String
  quotes : List String
  source : String
deriving DecidableEq, Repr

/-- Model of `UnlinkedNote` from src/types.ts. -/
structure UnlinkedNote where
  title : String
  content : String
  quotes : List String
  source : String
deriving DecidableEq, Repr

/-- Model of `ProcessingState` from src/types.ts (`error: string | null` becomes
`Option String`). -/
structure ProcessingState where
  status : Status
  stage : String
  inputText : String
  titles : List String
  unlinkedNotes : List UnlinkedNote
  finalNotes : List Note
  error : Option String
deriving DecidableEq, Repr

/-- The parsed phase-2 reply.  The TypeScript cast
`Omit<UnlinkedNote, 'title'>` is not validated at runtime (`JSON.parse(...)
as ...`), so the parsed object may additionally carry a `title` property
(`none` when absent) — and the spread `unlinkedNotes.push({ title, ...body })`
writes `title` first, letting a `title` key in the reply overwrite the loop
title. -/
structure NoteBody where
  title : Option String
  content : String
  quotes : List String
  source : String
deriving DecidableEq, Repr

/-- A `Partial<ProcessingState>` as passed to `onProgress`: present fields are
`some`, absent fields are `none`.  (`inputText` is included for fidelity to
the TypeScript type; no update in the code ever carries it.) -/
structure Update where
  status : Option Status
  stage : Option String
  inputText : Option String
  titles : Option (List String)
  unlinkedNotes : Option (List UnlinkedNote)
  finalNotes : Option (List Note)
  error : Option String
deriving DecidableEq, Repr

/-- Merge one partial update into a session, as `App.handleProgress` does with
`setSession(prev => (...prev, ...update))`. -/
def applyUpdate (s : ProcessingState) (u : Update) : ProcessingState where
  status := u.status.getD s.status
  stage := u.stage.getD s.stage
  inputText := u.inputText.getD s.inputText
  titles := u.titles.getD s.titles
  unlinkedNotes := u.unlinkedNotes.getD s.unlinkedNotes
  finalNotes := u.finalNotes.getD s.finalNotes
  error := (u.error.map some).getD s.error

/-- The session persisted after a run: every emitted update merged in order. -/
def applyUpdates (s : ProcessingState) (us : List Update) : ProcessingState :=
  us.foldl applyUpdate s

/-! ## Decimal rendering of indices

`index.toString()` in JavaScript renders the index in decimal;
`padStart(3, '0')` left-pads with zeros to length 3.  The digit list is
computed with explicit fuel so that it is structurally recursive (and hence
evaluable by `decide`); fuel `n + 1` always suffices because the argument
drops by a factor of 10 each step. -/

/-- Little-endian decimal digits of `n` (with fuel). -/
def decDigits : Nat → Nat → List Nat
  | 0, _ => []
  | fuel + 1, n => if n = 0 then [] else n % 10 :: decDigits fuel (n / 10)

/-- Decimal string of `n`, as JavaScript `Number.prototype.toString()`. -/
def decRepr (n : Nat) : String :=
  if n = 0 then "0" else String.mk (((decDigits (n + 1) n).reverse).map Nat.digitChar)

/-- JavaScript `String.prototype.padStart(3, '0')`. -/
def padStart3 (s : String) : String :=
  String.mk (List.replicate (3 - s.data.length) '0' ++ s.data)

/-- The deterministic note id assigned by the orchestrator:
`` `note_$(index.toString().padStart(3, '0'))` ``. -/
def noteId (i : Nat) : String :=
  "note_" ++ padStart3 (decRepr i)

/-- Model of `linkedNotes.map((note, index) => (...note, id: noteId index))`
(grokService.ts lines 121-124; identically geminiService.ts lines 211-214). -/
def assignIds : Nat → List Note → List Note
  | _, [] => []
  | i, n :: rest => { n with id := noteId i } :: assignIds (i + 1) rest

/-! ## Gateway oracle and events -/

/-- Oracle giving the outcome of each model call the orchestrator can make.
`genNote` also receives the loop index of the call: the same
`(inputText, title)` request may receive a different network outcome on each
call, so responses are indexed by call position.  Errors are the `message`
strings of the thrown JavaScript `Error`s.  A `genNote` reply may carry a
`title` property (see `NoteBody`): the code never validates its absence. -/
structure Gateway where
  extract : String → Except String (List String)
  genNote : Nat → String → String → Except String NoteBody
  interlink : List UnlinkedNote → Except String (List Note)

/-- All phase-2 replies of this gateway are free of a stray `title`
property — the well-behaved case in which the generated note keeps the loop
title. -/
def cleanTitles (g : Gateway) : Prop :=
  ∀ i t ti b, g.genNote i t ti = .ok b → b.title = none

/-- One observable step of a run: a progress update handed to `onProgress`, or
a phase call to the model gateway. -/
inductive Event where
  | progress (u : Update)
  | extractCall (input : String)
  | genCall (i : Nat) (input : String) (title : String)
  | interlinkCall (notes : List UnlinkedNote)
deriving DecidableEq, Repr

/-- The updates of a trace, in emission order. -/
def updatesOf (evs : List Event) : List Update :=
  evs.filterMap fun e => match e with
    | .progress u => some u
    | _ => none

/-- The index of a phase-2 generation call, if the event is one. -/
def genIdx (e : Event) : Option Nat :=
  match e with
  | .genCall i _ _ => some i
  | _ => none

/-- The `unlinkedNotes` values carried by the updates of a trace. -/
def unlinkedVals (evs : List Event) : List (List UnlinkedNote) :=
  evs.filterMap fun e => match e with
    | .progress u => u.unlinkedNotes
    | _ => none

/-! ## Progress updates emitted by the orchestrator (grokService.ts) -/

/-- Model of `onProgress({ stage, status: 'processing' })` (line 138). -/
def processingUpdate (st : String) : Update :=
  ⟨some Status.processing, some st, none, none, none, none, none⟩

/-- Model of `onProgress({ titles })` (line 141). -/
def titlesUpdate (ts : List String) : Update :=
  ⟨none, none, none, some ts, none, none, none⟩

/-- Model of `onProgress({ stage })` (lines 152 and 170). -/
def stageUpdate (st : String) : Update :=
  ⟨none, some st, none, none, none, none, none⟩

/-- Model of `onProgress({ unlinkedNotes })` (line 158). -/
def notesUpdate (ns : List UnlinkedNote) : Update :=
  ⟨none, none, none, none, some ns, none, none⟩

/-- Model of `onProgress({ finalNotes, status: 'completed', stage: '' })` (line 175). -/
def completeUpdate (fns : List Note) : Update :=
  ⟨some Status.completed, some "", none, none, none, some fns, none⟩

/-- Model of `onProgress({ status: 'error', error: descriptiveError })` (line 190). -/
def errorUpdate (e : String) : Update :=
  ⟨some Status.error, none, none, none, none, none, some e⟩

/-- Stage string of phase 1 (line 137). -/
def stage1 : String := "Phase 1/3: Extracting core concepts..."

/-- Stage string of phase 2 for note `i` (0-based) of `total` (line 151). -/
def stage2 (i total : Nat) (title : String) : String :=
  "Phase 2/3: Generating note " ++ decRepr (i + 1) ++ "/" ++ decRepr total ++
    ": \"" ++ String.mk (title.data.take 40) ++ "...\""

/-- Stage string of phase 3 (line 169). -/
def stage3 : String := "Phase 3/3: Weaving the knowledge graph..."

/-- The message of the error the orchestrator re-throws (line 191). -/
def grokFail (e : String) : String :=
  "Failed to process book with Grok: " ++ e

/-! ## The orchestrator (processBookWithGrok, grokService.ts lines 128-193)

The function is split phase by phase; `runGrok` chains the phases and models
the single top-level `try/catch`: the first phase error is converted to a
descriptive string, emitted as an `error` update, and re-thrown (`.error`).
Since thrown errors in this model are their `message` strings, the branch
`typeof error.message === 'string'` always applies and `descriptiveError` is
the message itself. -/

/-- Phase 1 (lines 136-142): run concept extraction only when `titles` is
empty. -/
def phase1 (g : Gateway) (s0 : ProcessingState) :
    List Event × Except String ProcessingState :=
  if s0.titles.length = 0 then
    let evs := [Event.progress (processingUpdate stage1), Event.extractCall s0.inputText]
    match g.extract s0.inputText with
    | .error e => (evs, .error e)
    | .ok titles =>
        (evs ++ [Event.progress (titlesUpdate titles)], .ok { s0 with titles := titles })
  else ([], .ok s0)

/-- The phase-2 loop (lines 149-163): for each remaining title, emit the stage
update, call the model, append the produced note, and emit the grown
`unlinkedNotes` list.  `i` is the loop index, `rest` the remaining titles
(`titles.drop startIndex`), `acc` the notes produced so far.  The note is
built as `{ title, ...body }`: a `title` property present in the parsed
reply overwrites the loop title (`body.title.getD t`).  The 1500 ms
inter-call delay of line 161 does not affect the trace of updates and calls
and is not recorded. -/
def genLoop (g : Gateway) (input : String) (total : Nat) :
    Nat → List String → List UnlinkedNote →
    List Event × Except String (List UnlinkedNote)
  | _, [], acc => ([], .ok acc)
  | i, t :: rest, acc =>
    let evs0 := [Event.progress (stageUpdate (stage2 i total t)), Event.genCall i input t]
    match g.genNote i input t with
    | .error e => (evs0, .error e)
    | .ok body =>
        let acc2 := acc ++
          [⟨body.title.getD t, body.content, body.quotes, body.source⟩]
        let p := genLoop g input total (i + 1) rest acc2
        (evs0 ++ Event.progress (notesUpdate acc2) :: p.1, p.2)

/-- Phase 3 (lines 168-176): skipped exactly when
`state.status === 'completed' && state.finalNotes.length !== 0` (the code
guard is the negation `status !== 'completed' || finalNotes.length === 0`);
otherwise one batch interlink call, whose reply gets deterministic ids. -/
def phase3 (g : Gateway) (s2 : ProcessingState) :
    List Event × Except String (List Note) :=
  if s2.status = Status.completed ∧ s2.finalNotes.length ≠ 0 then
    ([], .ok s2.finalNotes)
  else
    let evs := [Event.progress (stageUpdate stage3), Event.interlinkCall s2.unlinkedNotes]
    match g.interlink s2.unlinkedNotes with
    | .error e => (evs, .error e)
    | .ok linked =>
        (evs ++ [Event.progress (completeUpdate (assignIds 0 linked))],
          .ok (assignIds 0 linked))

/-- Phases 2 and 3 of a run, starting from the session state `s1` left by
phase 1 (`startIndex = unlinkedNotes.length`, lines 145-178), with the
`catch`-block behaviour (error update then re-throw) applied to their
errors. -/
def runFrom (g : Gateway) (s1 : ProcessingState) :
    List Event × Except String (List Note) :=
  let p2 := genLoop g s1.inputText s1.titles.length s1.unlinkedNotes.length
      (s1.titles.drop s1.unlinkedNotes.length) s1.unlinkedNotes
  match p2.2 with
  | .error e =>
      (p2.1 ++ [Event.progress (errorUpdate e)], .error (grokFail e))
  | .ok notes =>
    let p3 := phase3 g { s1 with unlinkedNotes := notes }
    match p3.2 with
    | .error e =>
        (p2.1 ++ p3.1 ++ [Event.progress (errorUpdate e)],
          .error (grokFail e))
    | .ok fns => (p2.1 ++ p3.1, .ok fns)

/-- One run of `processBookWithGrok`: the trace of events in order, and the
result (`.ok finalNotes`, or `.error` with the re-thrown message). -/
def runGrok (g : Gateway) (s0 : ProcessingState) :
    List Event × Except String (List Note) :=
  let p1 := phase1 g s0
  match p1.2 with
  | .error e => (p1.1 ++ [Event.progress (errorUpdate e)], .error (grokFail e))
  | .ok s1 => (p1.1 ++ (runFrom g s1).1, (runFrom g s1).2)

/-- The session as persisted after a run: the initial session with every
emitted update merged in order. -/
def persistedGrok (g : Gateway) (s0 : ProcessingState) : ProcessingState :=
  applyUpdates s0 (updatesOf (runGrok g s0).1)

/-! ## Retry wrappers (grokService.ts lines 32-81, geminiService.ts lines 11-39)

An attempt oracle gives the outcome of the `attempt`-th underlying call:
`.ok` with the reply, or `.error` with the thrown error's `message` string.
Each wrapper returns the list of backoff delays it slept (in order) together
with the reply it returns or the error it re-throws.  Rate-limit detection is
by substring test on the message, as in the sources. -/

/-- Model of `JavaScript String.prototype.includes`, on explicit character lists. -/
def isSubAt : List Char → List Char → Bool
  | [], _ => true
  | _ :: _, [] => false
  | p :: ps, c :: cs => p = c && isSubAt ps cs

/-- Whether `pat` occurs as a contiguous substring of `l`. -/
def containsSub (l pat : List Char) : Bool :=
  isSubAt pat l ||
    match l with
    | [] => false
    | _ :: rest => containsSub rest pat

/-- Model of `s.includes(pat)`. -/
def jsIncludes (s pat : String) : Bool :=
  containsSub s.data pat.data

/-- Model of `error?.message?.includes('429') || error?.message?.includes('too many requests')`
(grokService.ts line 67). -/
def isGrokRateLimit (msg : String) : Bool :=
  jsIncludes msg "429" || jsIncludes msg "too many requests"

/-- Model of `error?.message?.includes('"code":429') || error?.message?.includes('RESOURCE_EXHAUSTED')`
(geminiService.ts line 23). -/
def isGeminiRateLimit (msg : String) : Bool :=
  jsIncludes msg "\"code\":429" || jsIncludes msg "RESOURCE_EXHAUSTED"

/-- The `for (attempt ...)` loop of `callGrokWithRetries`: retry only when the
error is a rate limit AND `attempt < maxRetries - 1`; otherwise re-throw.
The fuel is the number of remaining loop iterations, so the `fuel = 0` case is
the `throw lastError` after the loop — unreachable for `maxRetries ≥ 1`
because the last iteration always throws, hence the placeholder message
(in the source `lastError` starts as `null`). -/
def grokRetryGo (oracle : Nat → Except String String) (maxRetries initialDelay : Nat) :
    Nat → Nat → List Nat × Except String String
  | 0, _ => ([], .error "no error captured")
  | fuel + 1, attempt =>
    match oracle attempt with
    | .ok s => ([], .ok s)
    | .error e =>
      if isGrokRateLimit e ∧ attempt < maxRetries - 1 then
        let p := grokRetryGo oracle maxRetries initialDelay fuel (attempt + 1)
        (initialDelay * 2 ^ attempt :: p.1, p.2)
      else ([], .error e)

/-- Model of `callGrokWithRetries` (grokService.ts lines 32-81); defaults in the source
are `maxRetries = 3`, `initialDelay = 2000`. -/
def callGrokWithRetries (oracle : Nat → Except String String)
    (maxRetries initialDelay : Nat) : List Nat × Except String String :=
  grokRetryGo oracle maxRetries initialDelay maxRetries 0

/-- The loop of `callGeminiWithRetries`: on a rate-limit error it always
sleeps `initialDelay * 2 ^ attempt` and continues — there is no
`attempt < maxRetries - 1` guard — so the loop can exhaust all iterations and
fall through to `throw lastError`, which carries the last captured error. -/
def geminiRetryGo (oracle : Nat → Except String String) (initialDelay : Nat) :
    Nat → Nat → String → List Nat × Except String String
  | 0, _, last => ([], .error last)
  | fuel + 1, attempt, _ =>
    match oracle attempt with
    | .ok s => ([], .ok s)
    | .error e =>
      if isGeminiRateLimit e then
        let p := geminiRetryGo oracle initialDelay fuel (attempt + 1) e
        (initialDelay * 2 ^ attempt :: p.1, p.2)
      else ([], .error e)

/-- Model of `callGeminiWithRetries` (geminiService.ts lines 11-39); defaults in the
source are `maxRetries = 3`, `initialDelay = 2000`.  The initial `lastError`
is `null` in the source; it is only thrown when `maxRetries = 0`. -/
def callGeminiWithRetries (oracle : Nat → Except String String)
    (maxRetries initialDelay : Nat) : List Nat × Except String String :=
  geminiRetryGo oracle initialDelay maxRetries 0 "no error captured"

/-! ## A model of JSON.parse

A fueled recursive-descent parser for JSON values, used to model
`JSON.parse`: `none` models a thrown `SyntaxError`.  The value representation
keeps number lexemes as strings (no arithmetic is performed on them anywhere
in the pipeline).  `\uXXXX` string escapes are not modelled; no theorem below
evaluates the parser on an input containing them.  Fuel `length + 1` suffices
since every recursive step consumes at least one character. -/

/-- JSON values. -/
inductive Json where
  | null : Json
  | bool (b : Bool) : Json
  | num (lexeme : String) : Json
  | str (s : String) : Json
  | arr (items : List Json) : Json
  | obj (fields : List (String × Json)) : Json

/-- JSON insignificant whitespace. -/
def isJsonWs (c : Char) : Bool :=
  c = ' ' ∨ c = '\t' ∨ c = '\n' ∨ c = '\r'

/-- Skip insignificant whitespace. -/
def skipWs (l : List Char) : List Char :=
  l.dropWhile isJsonWs

/-- Characters that may continue a number lexeme. -/
def isNumChar (c : Char) : Bool :=
  c.isDigit ∨ c = '-' ∨ c = '+' ∨ c = '.' ∨ c = 'e' ∨ c = 'E'

/-- Opening brace character (written numerically). -/
def lbraceChar : Char := Char.ofNat 123

/-- Closing brace character (written numerically). -/
def rbraceChar : Char := Char.ofNat 125

/-- Parse the remainder of a JSON string literal (after the opening quote),
returning the decoded string and the rest of the input. -/
def parseJString : List Char → Option (String × List Char)
  | [] => none
  | '\\' :: c :: rest => do
      let esc ← match c with
        | '"' => some '"'
        | '\\' => some '\\'
        | '/' => some '/'
        | 'b' => some (Char.ofNat 8)
        | 'f' => some (Char.ofNat 12)
        | 'n' => some '\n'
        | 'r' => some '\r'
        | 't' => some '\t'
        | _ => none
      let p ← parseJString rest
      some (String.mk (esc :: p.1.data), p.2)
  | c :: rest =>
      if c = '"' then some ("", rest)
      else do
        let p ← parseJString rest
        some (String.mk (c :: p.1.data), p.2)

mutual

/-- Parse one JSON value. -/
def parseJson : Nat → List Char → Option (Json × List Char)
  | 0, _ => none
  | fuel + 1, l =>
    match skipWs l with
    | 'n' :: 'u' :: 'l' :: 'l' :: rest => some (.null, rest)
    | 't' :: 'r' :: 'u' :: 'e' :: rest => some (.bool true, rest)
    | 'f' :: 'a' :: 'l' :: 's' :: 'e' :: rest => some (.bool false, rest)
    | '"' :: rest => (parseJString rest).map fun p => (.str p.1, p.2)
    | '[' :: rest =>
      (match skipWs rest with
        | ']' :: rest2 => some (.arr [], rest2)
        | rest2 => (parseJsonItems fuel rest2).map fun p => (.arr p.1, p.2))
    | c :: rest =>
      if c = lbraceChar then
        match skipWs rest with
        | c2 :: rest2 =>
          if c2 = rbraceChar then some (.obj [], rest2)
          else (parseJsonFields fuel (c2 :: rest2)).map fun p => (.obj p.1, p.2)
        | [] => none
      else if c.isDigit ∨ c = '-' then
        some (.num (String.mk ((c :: rest).takeWhile isNumChar)),
          (c :: rest).dropWhile isNumChar)
      else none
    | [] => none

/-- Parse the items of a JSON array (first item onward, `]` not yet seen). -/
def parseJsonItems : Nat → List Char → Option (List Json × List Char)
  | 0, _ => none
  | fuel + 1, l => do
    let p ← parseJson fuel l
    match skipWs p.2 with
    | ',' :: r2 => do
        let q ← parseJsonItems fuel r2
        some (p.1 :: q.1, q.2)
    | ']' :: r2 => some ([p.1], r2)
    | _ => none

/-- Parse the fields of a JSON object (first field onward, closing brace not
yet seen). -/
def parseJsonFields : Nat → List Char → Option (List (String × Json) × List Char)
  | 0, _ => none
  | fuel + 1, l =>
    match skipWs l with
    | '"' :: r => do
      let pk ← parseJString r
      match skipWs pk.2 with
      | ':' :: r2 => do
        let pv ← parseJson fuel r2
        match skipWs pv.2 with
        | c :: r4 =>
          if c = rbraceChar then some ([(pk.1, pv.1)], r4)
          else if c = ',' then do
            let pf ← parseJsonFields fuel r4
            some ((pk.1, pv.1) :: pf.1, pf.2)
          else none
        | [] => none
      | _ => none
    | _ => none

end

/-- Model of `JSON.parse`: parse one value and require only whitespace after it;
`none` models a thrown `SyntaxError` (in particular `jsonParse "" = none`).  -/
def jsonParse (s : String) : Option Json :=
  match parseJson (s.data.length + 1) s.data with
  | some (v, rest) => if skipWs rest = [] then some v else none
  | none => none

/-! ## Response parsers -/

/-- Model of `String.prototype.trim` over ASCII whitespace. -/
def jsTrim (s : String) : String :=
  String.mk (((s.data.dropWhile Char.isWhitespace).reverse.dropWhile
    Char.isWhitespace).reverse)

/-- The OpenRouter reply shape the services read:
`choices: [{ message: { content }, finish_reason }]`. -/
structure ORChoice where
  content : String
  finish_reason : String
deriving DecidableEq, Repr

/-- A chat-completion response body (extra provider fields are ignored by the
code and hence not modelled). -/
structure ORResponse where
  choices : List ORChoice
deriving DecidableEq, Repr

/-- Model of `data.choices[0]?.message?.content || ''` (grokService.ts line 64): the
string the grok retry wrapper hands to the parser. -/
def grokContentOf (r : ORResponse) : String :=
  ((r.choices.head?).map (fun c => c.content)).getD ""

/-- Strip the optional markdown fences:
`responseText.replace(/^```json\s*/, '').replace(/\s*```$/, '')`
(grokService.ts line 23; identically geminiService.ts line 66). -/
def stripFences (s : String) : String :=
  let afterLead :=
    if "```json".data.isPrefixOf s.data
    then (s.data.drop 7).dropWhile Char.isWhitespace
    else s.data
  let afterTrail :=
    if "```".data.isPrefixOf afterLead.reverse
    then ((afterLead.reverse.drop 3).dropWhile Char.isWhitespace).reverse
    else afterLead
  String.mk afterTrail

/-- Model of `safeParseJsonResponse` of grokService.ts (lines 19-29): strip fences,
`JSON.parse`, and on any parse failure throw the single fixed message.  The
finish reason is not available here — the wrapper returned only the content
string. -/
def grokSafeParseJsonResponse (responseText : String) : Except String Json :=
  match jsonParse (stripFences responseText) with
  | some v => .ok v
  | none => .error "Invalid response format from API"

/-- A grok-service phase applied to a raw reply: content extraction as in the
wrapper, then `safeParseJsonResponse`. -/
def grokHandleReply (r : ORResponse) : Except String Json :=
  grokSafeParseJsonResponse (grokContentOf r)

/-- Model of `safeParseJsonResponse` of src/unnamed/part_001 (lines 78-105): empty or
missing content is classified by `finish_reason` into three distinct
messages; otherwise the content is `JSON.parse`d.  (On a parse failure the
source appends the engine's `SyntaxError` message; the fixed fallback text of
line 103 is used here since no engine message exists in the model.) -/
def part001SafeParseJsonResponse (r : ORResponse) : Except String Json :=
  let contentString := (r.choices.head?).map (fun c => c.content)
  match contentString with
  | some s =>
    if jsTrim s = "" then
      let finishReason := (r.choices.head?).map (fun c => c.finish_reason)
      if finishReason = some "content_filter" then
        .error "The request was blocked by a content filter. Please modify the input text."
      else if finishReason = some "length" ∨ finishReason = some "max_tokens" then
        .error "The response was cut off because it reached the maximum token limit."
      else
        .error "OpenRouter API returned an empty or invalid response."
    else
      match jsonParse s with
      | some v => .ok v
      | none => .error "Invalid JSON response from API."
  | none =>
      let finishReason := (r.choices.head?).map (fun c => c.finish_reason)
      if finishReason = some "content_filter" then
        .error "The request was blocked by a content filter. Please modify the input text."
      else if finishReason = some "length" ∨ finishReason = some "max_tokens" then
        .error "The response was cut off because it reached the maximum token limit."
      else
        .error "OpenRouter API returned an empty or invalid response."

/-! ## Cross-reference resolution (NetworkGraph and App)

`NetworkGraph` (the component following grokService.ts in the bundle, lines
208-226 of that file) builds the link list: a map from
`note.title.trim().toLowerCase()` to `note.id` (later notes overwrite earlier
ones on a duplicate key, as in the `Map` constructor), then for every marker
`[[...]]` in a note's content, looks up the trimmed lowercased inner text and
pushes an edge unless the target is missing or is the note itself.  Notes and
their contents are never modified.  The marker scan models the JavaScript
`content.match(/\[\[(.*?)\]\]/g)`: a match starts at a literal `[[`, the lazy
`.*?` takes the nearest `]]`, and `.` does not cross a line terminator — if a
newline appears before the next `]]`, no match starts at that `[[` and the
scan resumes one character later. -/

/-- ASCII lowercasing, as `String.prototype.toLowerCase` acts on ASCII
titles. -/
def charLower (c : Char) : Char :=
  if 'A' ≤ c ∧ c ≤ 'Z' then Char.ofNat (c.toNat + 32) else c

/-- Model of `title.trim().toLowerCase()` — the normalization used on both sides of
every title comparison. -/
def normTitle (s : String) : String :=
  String.mk ((jsTrim s).data.map charLower)

/-- Scan the inside of a candidate marker (input starts right after `[[`):
return the inner text and the input after the closing `]]`, or `none` when a
line terminator or the end of input comes first. -/
def scanInner : List Char → Option (List Char × List Char)
  | [] => none
  | c :: rest =>
    if c = ']' ∧ rest.head? = some ']' then some ([], rest.tail)
    else if c = '\n' ∨ c = '\r' then none
    else (scanInner rest).map fun p => (c :: p.1, p.2)

/-- All `[[...]]` marker inner texts of a character list, in order (with
fuel; fuel `length` suffices as every step consumes at least one
character). -/
def findMarkers0 : Nat → List Char → List (List Char)
  | 0, _ => []
  | fuel + 1, l =>
    match l with
    | '[' :: '[' :: rest =>
      (match scanInner rest with
        | some (inner, after) => inner :: findMarkers0 fuel after
        | none => findMarkers0 fuel ('[' :: rest))
    | _ :: rest => findMarkers0 fuel rest
    | [] => []

/-- Model of `content.match(/\[\[(.*?)\]\]/g)` with the surrounding brackets already
removed from each match. -/
def findMarkers (s : String) : List String :=
  (findMarkers0 s.data.length s.data).map String.mk

/-- Lookup in the `titleToIdMap`
(`new Map(notes.map(note => [note.title.trim().toLowerCase(), note.id]))`):
the id of the last note whose normalized title is `key`. -/
def titleToId (notes : List Note) (key : String) : Option String :=
  ((notes.filter fun n => normTitle n.title = key).getLast?).map fun n => n.id

/-- The edges contributed by one note's content markers: resolve each marker,
drop danglers and self-targets. -/
def noteLinks (notes : List Note) (note : Note) : List (String × String) :=
  (findMarkers note.content).filterMap fun m =>
    match titleToId notes (normTitle m) with
    | some tid => if tid ≠ note.id then some (note.id, tid) else none
    | none => none

/-- The full link list of the graph (`notes.forEach(... push ...)`). -/
def buildLinks (notes : List Note) : List (String × String) :=
  notes.flatMap (noteLinks notes)

/-- Model of `App.handleSelectNoteByTitle` (App.tsx lines 183-192): ignore clicks
unless the session is completed, then select the first final note whose
normalized title matches the clicked link text; return the selected id,
`none` when nothing happens. -/
def handleSelectNoteByTitle (status : Status) (finalNotes : List Note)
    (title : String) : Option String :=
  if status ≠ Status.completed then none
  else ((finalNotes.find? fun n => normTitle n.title = normTitle title).map fun n => n.id)

/-- Model of `allTitles.filter(t => t !== noteToLink.title)` — the link-target list the
per-note interlink strategy supplies to the model
(src/unnamed/part_001 line 129). -/
def interlinkTargets (noteToLink : UnlinkedNote) (allTitles : List String) :
    List String :=
  allTitles.filter fun t => t ≠ noteToLink.title

/-! ## Determinism of the assigned ids -/

/-- Numeric value of a decimal digit character. -/
def charVal (c : Char) : Nat := c.toNat - 48

/-- Read a big-endian decimal digit string back into a number. -/
def decodeDec (l : List Char) : Nat :=
  l.foldl (fun acc c => acc * 10 + charVal c) 0

/-- Little-endian digit list read back into a number. -/
def ofDec (ds : List Nat) : Nat :=
  ds.foldr (fun d acc => d + 10 * acc) 0

theorem ofDec_decDigits : ∀ fuel n, n < fuel → ofDec (decDigits fuel n) = n := by
  intro fuel
  induction fuel with
  | zero => intro n h; omega
  | succ f ih =>
    intro n h
    by_cases h0 : n = 0
    · simp [decDigits, h0, ofDec]
    · have hdiv : n / 10 < f := by
        have h1 : n / 10 < n := Nat.div_lt_self (Nat.pos_of_ne_zero h0) (by omega)
        omega
      simp only [decDigits, h0, if_false, ofDec, List.foldr_cons]
      have := ih (n / 10) hdiv
      simp only [ofDec] at this
      rw [this]
      omega

theorem decDigits_lt_ten : ∀ fuel n d, d ∈ decDigits fuel n → d < 10 := by
  intro fuel
  induction fuel with
  | zero => intro n d h; simp [decDigits] at h
  | succ f ih =>
    intro n d h
    by_cases h0 : n = 0
    · simp [decDigits, h0] at h
    · simp only [decDigits, h0, if_false, List.mem_cons] at h
      rcases h with h | h
      · omega
      · exact ih _ _ h

theorem charVal_digitChar : ∀ d, d < 10 → charVal (Nat.digitChar d) = d := by decide

theorem foldl_mul_add (ds : List Nat) (a : Nat) :
    List.foldl (fun acc d => acc * 10 + d) a ds.reverse =
      a * 10 ^ ds.length + ofDec ds := by
  induction ds generalizing a with
  | nil => simp [ofDec]
  | cons d rest ih =>
    simp only [List.reverse_cons, List.foldl_append, ih, List.foldl_cons,
      List.foldl_nil, ofDec, List.foldr_cons, List.length_cons]
    have : ∀ x : Nat, x + 10 * List.foldr (fun d acc => d + 10 * acc) 0 rest =
        ofDec (x :: rest) := by intro x; simp [ofDec]
    ring_nf
    omega

theorem decodeDec_decRepr (n : Nat) : decodeDec (decRepr n).data = n := by
  by_cases h0 : n = 0
  · subst h0; decide
  · simp only [decRepr, h0, if_false, decodeDec]
    rw [List.foldl_map]
    have hall : ∀ d ∈ (decDigits (n + 1) n).reverse, d < 10 := by
      intro d hd
      exact decDigits_lt_ten _ _ _ (List.mem_reverse.mp hd)
    have hcong : ∀ (l : List Nat) (a : Nat), (∀ d ∈ l, d < 10) →
        List.foldl (fun acc d => acc * 10 + charVal (Nat.digitChar d)) a l =
        List.foldl (fun acc d => acc * 10 + d) a l := by
      intro l
      induction l with
      | nil => intro a _; rfl
      | cons d rest ih =>
        intro a hl
        simp only [List.foldl_cons]
        rw [charVal_digitChar d (hl d (List.mem_cons_self d rest)), ih]
        intro x hx; exact hl x (List.mem_cons_of_mem _ hx)
    rw [hcong _ _ hall, foldl_mul_add, ofDec_decDigits (n + 1) n (by omega)]
    simp

theorem decodeDec_replicate_zero (m : Nat) (l : List Char) :
    decodeDec (List.replicate m '0' ++ l) = decodeDec l := by
  simp only [decodeDec, List.foldl_append]
  congr 1
  induction m with
  | zero => rfl
  | succ k ih => simpa [List.replicate_succ, charVal] using ih

theorem noteId_injective : Function.Injective noteId := by
  intro i j h
  have hdata : ("note_" ++ padStart3 (decRepr i)).data =
      ("note_" ++ padStart3 (decRepr j)).data := congrArg String.data h
  simp only [String.data_append] at hdata
  have hpad : (padStart3 (decRepr i)).data = (padStart3 (decRepr j)).data :=
    List.append_cancel_left hdata
  simp only [padStart3] at hpad
  have := congrArg decodeDec hpad
  rwa [decodeDec_replicate_zero, decodeDec_replicate_zero,
    decodeDec_decRepr, decodeDec_decRepr] at this

theorem assignIds_length : ∀ (l : List Note) (k : Nat),
    (assignIds k l).length = l.length := by
  intro l
  induction l with
  | nil => intro k; rfl
  | cons n rest ih => intro k; simp [assignIds, ih]

theorem assignIds_map_id : ∀ (l : List Note) (k : Nat),
    (assignIds k l).map (fun n => n.id) = (List.range' k l.length).map noteId := by
  intro l
  induction l with
  | nil => intro k; rfl
  | cons n rest ih => intro k; simp [assignIds, List.range', ih]

theorem assignIds_id_get (l : List Note) (k : Nat) (i : Nat)
    (h : i < (assignIds k l).length) : (assignIds k l)[i].id = noteId (k + i) := by
  induction l generalizing k i with
  | nil => simp [assignIds] at h
  | cons n rest ih =>
    cases i with
    | zero => simp [assignIds]
    | succ j =>
      have hj : j < (assignIds (k + 1) rest).length := by
        simpa [assignIds] using h
      have hrec := ih (k + 1) j hj
      have harith : k + 1 + j = k + (j + 1) := by omega
      rw [harith] at hrec
      simpa [assignIds] using hrec

theorem assignIds_nodup_ids (l : List Note) :
    ((assignIds 0 l).map (fun n => n.id)).Nodup := by
  rw [assignIds_map_id]
  exact (List.nodup_range' 0 l.length).map noteId_injective

/-! ## Trace bookkeeping lemmas -/

theorem updatesOf_append (a b : List Event) :
    updatesOf (a ++ b) = updatesOf a ++ updatesOf b := by
  simp [updatesOf]

theorem unlinkedVals_append (a b : List Event) :
    unlinkedVals (a ++ b) = unlinkedVals a ++ unlinkedVals b := by
  simp [unlinkedVals]

theorem applyUpdates_append (s : ProcessingState) (a b : List Update) :
    applyUpdates s (a ++ b) = applyUpdates (applyUpdates s a) b := by
  simp [applyUpdates]

theorem applyUpdates_titles_none (s : ProcessingState) :
    ∀ us : List Update, (∀ u ∈ us, u.titles = none) →
      (applyUpdates s us).titles = s.titles := by
  intro us
  induction us generalizing s with
  | nil => intro _; rfl
  | cons u rest ih =>
    intro h
    have hstep : (applyUpdate s u).titles = s.titles := by
      simp [applyUpdate, h u (List.mem_cons_self u rest)]
    simp only [applyUpdates, List.foldl_cons]
    rw [show List.foldl applyUpdate (applyUpdate s u) rest =
      applyUpdates (applyUpdate s u) rest from rfl,
      ih (applyUpdate s u) (fun x hx => h x (List.mem_cons_of_mem _ hx)), hstep]

theorem applyUpdates_error_none (s : ProcessingState) :
    ∀ us : List Update, (∀ u ∈ us, u.error = none) →
      (applyUpdates s us).error = s.error := by
  intro us
  induction us generalizing s with
  | nil => intro _; rfl
  | cons u rest ih =>
    intro h
    have hstep : (applyUpdate s u).error = s.error := by
      simp [applyUpdate, h u (List.mem_cons_self u rest)]
    simp only [applyUpdates, List.foldl_cons]
    rw [show List.foldl applyUpdate (applyUpdate s u) rest =
      applyUpdates (applyUpdate s u) rest from rfl,
      ih (applyUpdate s u) (fun x hx => h x (List.mem_cons_of_mem _ hx)), hstep]

/-- A property of the `unlinkedNotes` field that holds initially and at every
update that carries the field holds of the persisted session. -/
theorem applyUpdates_unlinked_inv (P : List UnlinkedNote → Prop)
    (s : ProcessingState) :
    ∀ us : List Update, P s.unlinkedNotes →
      (∀ u ∈ us, ∀ v, u.unlinkedNotes = some v → P v) →
      P (applyUpdates s us).unlinkedNotes := by
  intro us
  induction us generalizing s with
  | nil => intro h _; exact h
  | cons u rest ih =>
    intro hs h
    simp only [applyUpdates, List.foldl_cons]
    refine ih (applyUpdate s u) ?_ (fun x hx => h x (List.mem_cons_of_mem _ hx))
    rcases hv : u.unlinkedNotes with _ | v
    · simpa [applyUpdate, hv] using hs
    · have := h u (List.mem_cons_self u rest) v hv
      simpa [applyUpdate, hv] using this

/-! ## Phase-2 loop lemmas -/

theorem genLoop_event_shape (g : Gateway) (input : String) (total : Nat) :
    ∀ (rest : List String) (i : Nat) (acc : List UnlinkedNote)
      (e : Event), e ∈ (genLoop g input total i rest acc).1 →
      (∃ st, e = .progress (stageUpdate st)) ∨
      (∃ j t, e = .genCall j input t) ∨
      (∃ new, e = .progress (notesUpdate (acc ++ new)) ∧
        new.length ≤ rest.length ∧
        (cleanTitles g → new.map (fun n => n.title) <+: rest)) := by
  intro rest
  induction rest with
  | nil => intro i acc e h; simp [genLoop] at h
  | cons t rest ih =>
    intro i acc e h
    rcases hg : g.genNote i input t with eG | body
    · simp only [genLoop, hg, List.mem_cons, List.not_mem_nil, or_false] at h
      rcases h with h | h
      · exact Or.inl ⟨_, h⟩
      · exact Or.inr (Or.inl ⟨_, _, h⟩)
    · simp only [genLoop, hg, List.cons_append, List.nil_append, List.mem_cons] at h
      rcases h with h | h | h | h
      · exact Or.inl ⟨_, h⟩
      · exact Or.inr (Or.inl ⟨_, _, h⟩)
      · refine Or.inr (Or.inr
          ⟨[⟨body.title.getD t, body.content, body.quotes, body.source⟩], h,
            by simp, ?_⟩)
        intro hclean
        have hbt : body.title = none := hclean i input t body hg
        simp [hbt]
      · rcases ih (i + 1)
          (acc ++ [⟨body.title.getD t, body.content, body.quotes, body.source⟩])
          e h with h1 | h2 | ⟨new, hnew, hlen, hpre⟩
        · exact Or.inl h1
        · exact Or.inr (Or.inl h2)
        · refine Or.inr (Or.inr
            ⟨⟨body.title.getD t, body.content, body.quotes, body.source⟩ :: new,
              ?_, ?_, ?_⟩)
          · simpa [List.append_assoc] using hnew
          · simpa using Nat.succ_le_succ hlen
          · intro hclean
            have hbt : body.title = none := hclean i input t body hg
            simp only [List.map_cons, hbt, Option.getD_none]
            exact (List.prefix_cons_inj _).mpr (hpre hclean)

theorem genLoop_ok (g : Gateway) (input : String) (total : Nat) :
    ∀ (rest : List String) (i : Nat) (acc : List UnlinkedNote)
      (final : List UnlinkedNote),
      (genLoop g input total i rest acc).2 = .ok final →
      ∃ new, final = acc ++ new ∧ new.length = rest.length ∧
        (cleanTitles g → new.map (fun n => n.title) = rest) := by
  intro rest
  induction rest with
  | nil =>
    intro i acc final h
    simp only [genLoop, Except.ok.injEq] at h
    exact ⟨[], by simp [h.symm], rfl, fun _ => rfl⟩
  | cons t rest ih =>
    intro i acc final h
    rcases hg : g.genNote i input t with eG | body <;>
      simp only [genLoop, hg] at h
    · cases h
    · rcases ih (i + 1)
        (acc ++ [⟨body.title.getD t, body.content, body.quotes, body.source⟩])
        final h with ⟨new, hfin, hlen, hmap⟩
      refine ⟨⟨body.title.getD t, body.content, body.quotes, body.source⟩ :: new,
        by simpa using hfin, by simpa using hlen, ?_⟩
      intro hclean
      have hbt : body.title = none := hclean i input t body hg
      simp only [List.map_cons, hbt, Option.getD_none]
      rw [hmap hclean]

theorem genLoop_error (g : Gateway) (input : String) (total : Nat) :
    ∀ (rest : List String) (i : Nat) (acc : List UnlinkedNote) (e : String),
      (genLoop g input total i rest acc).2 = .error e →
      ∃ j t, g.genNote j input t = .error e := by
  intro rest
  induction rest with
  | nil => intro i acc e h; simp [genLoop] at h
  | cons t rest ih =>
    intro i acc e h
    rcases hg : g.genNote i input t with eG | body <;>
      simp only [genLoop, hg] at h
    · have he : eG = e := by simpa using h
      exact ⟨i, t, he ▸ hg⟩
    · exact ih (i + 1) _ e h

theorem genLoop_calls (g : Gateway) (input : String) (total : Nat) :
    ∀ (rest : List String) (i : Nat) (acc : List UnlinkedNote),
      (∀ j (h : j < rest.length), (g.genNote (i + j) input rest[j]).isOk) →
      (genLoop g input total i rest acc).1.filterMap genIdx =
        List.range' i rest.length := by
  intro rest
  induction rest with
  | nil => intro i acc _; simp [genLoop, List.range']
  | cons t rest ih =>
    intro i acc hok
    have h0 : (g.genNote i input t).isOk := by simpa using hok 0 (by simp)
    rcases hg : g.genNote i input t with eG | body
    · rw [hg] at h0; simp [Except.isOk, Except.toBool] at h0
    · have hrec := ih (i + 1)
        (acc ++ [⟨body.title.getD t, body.content, body.quotes, body.source⟩])
        (fun j hj => by
          have := hok (j + 1) (by simpa using Nat.succ_lt_succ hj)
          simpa [Nat.add_assoc, Nat.add_comm 1 j] using this)
      simp only [genLoop, hg, List.length_cons, List.range']
      simp [genIdx, stageUpdate, hrec]

theorem genLoop_chain (g : Gateway) (input : String) (total : Nat) :
    ∀ (rest : List String) (i : Nat) (acc : List UnlinkedNote),
      List.Chain' (fun a b => a <+: b)
        (acc :: unlinkedVals (genLoop g input total i rest acc).1) := by
  intro rest
  induction rest with
  | nil => intro i acc; simp [genLoop, unlinkedVals]
  | cons t rest ih =>
    intro i acc
    rcases hg : g.genNote i input t with eG | body
    · simp [genLoop, hg, unlinkedVals, stageUpdate]
    · have := ih (i + 1)
        (acc ++ [⟨body.title.getD t, body.content, body.quotes, body.source⟩])
      simp only [genLoop, hg]
      simp only [unlinkedVals, List.filterMap_append, List.filterMap_cons] at this ⊢
      simp only [stageUpdate, notesUpdate] at this ⊢
      simp only [List.filterMap_nil] at this ⊢
      refine List.Chain'.cons ?_ (by simpa using this)
      exact ⟨_, rfl⟩

theorem mem_updatesOf {u : Update} {evs : List Event} :
    u ∈ updatesOf evs ↔ Event.progress u ∈ evs := by
  simp only [updatesOf, List.mem_filterMap]
  constructor
  · rintro ⟨e, he, hf⟩
    cases e <;> simp_all
  · intro h; exact ⟨_, h, rfl⟩

theorem genLoop_ok_of_isOk (g : Gateway) (input : String) (total : Nat) :
    ∀ (rest : List String) (i : Nat) (acc : List UnlinkedNote),
      (∀ j (h : j < rest.length), (g.genNote (i + j) input rest[j]).isOk) →
      ∃ final, (genLoop g input total i rest acc).2 = .ok final := by
  intro rest
  induction rest with
  | nil => intro i acc _; exact ⟨acc, rfl⟩
  | cons t rest ih =>
    intro i acc hok
    have h0 : (g.genNote i input t).isOk := by simpa using hok 0 (by simp)
    rcases hg : g.genNote i input t with eG | body
    · rw [hg] at h0; simp [Except.isOk, Except.toBool] at h0
    · have := ih (i + 1)
        (acc ++ [⟨body.title.getD t, body.content, body.quotes, body.source⟩])
        (fun j hj => by
          have := hok (j + 1) (by simpa using Nat.succ_lt_succ hj)
          simpa [Nat.add_assoc, Nat.add_comm 1 j] using this)
      simpa [genLoop, hg] using this

theorem phase3_event_shape (g : Gateway) (s2 : ProcessingState) :
    ∀ e ∈ (phase3 g s2).1,
      e = .progress (stageUpdate stage3) ∨ e = .interlinkCall s2.unlinkedNotes ∨
      ∃ fns, e = .progress (completeUpdate fns) := by
  intro e he
  by_cases hskip : s2.status = Status.completed ∧ s2.finalNotes.length ≠ 0
  · simp [phase3, hskip] at he
  · rcases hi : g.interlink s2.unlinkedNotes with eI | linked <;>
      simp only [phase3, hskip, if_false, hi, List.mem_cons, List.not_mem_nil,
        or_false, List.mem_append] at he <;> tauto

theorem phase3_error (g : Gateway) (s2 : ProcessingState) (e : String)
    (h : (phase3 g s2).2 = .error e) : g.interlink s2.unlinkedNotes = .error e := by
  by_cases hskip : s2.status = Status.completed ∧ s2.finalNotes.length ≠ 0
  · simp [phase3, hskip] at h
  · rcases hi : g.interlink s2.unlinkedNotes with eI | linked <;>
      simp only [phase3, hskip, if_false, hi] at h
    · exact h
    · cases h

theorem phase3_no_genCalls (g : Gateway) (s2 : ProcessingState) :
    (phase3 g s2).1.filterMap genIdx = [] := by
  rw [List.filterMap_eq_nil_iff]
  intro e he
  rcases phase3_event_shape g s2 e he with h | h | ⟨fns, h⟩ <;> subst h <;> rfl

/-- C1: for every Session with non-empty `titles` and
`unlinkedNotes.length = k ≤ titles.length`, provided the phase-2 calls for the
remaining indices succeed, a run of the orchestrator never performs the
phase-1 extraction call (and the persisted `titles` is unchanged), performs
the phase-2 generation call exactly once for each index `i` from `k` to
`titles.length - 1` in increasing index order, and every `unlinkedNotes`
value it emits extends the initial `unlinkedNotes` (the first `k` entries are
never regenerated or modified). -/
theorem claim_C1_idempotent_resume (g : Gateway) (s : ProcessingState)
    (htitles : s.titles ≠ [])
    (hlen : s.unlinkedNotes.length ≤ s.titles.length)
    (hok : ∀ i (h : i < s.titles.length), s.unlinkedNotes.length ≤ i →
      (g.genNote i s.inputText s.titles[i]).isOk) :
    (∀ e ∈ (runGrok g s).1, ∀ inp, e ≠ Event.extractCall inp) ∧
    (persistedGrok g s).titles = s.titles ∧
    (runGrok g s).1.filterMap genIdx =
      List.range' s.unlinkedNotes.length
        (s.titles.length - s.unlinkedNotes.length) ∧
    (∀ u ∈ updatesOf (runGrok g s).1, ∀ v, u.unlinkedNotes = some v →
      s.unlinkedNotes <+: v) := by
  have hlen0 : s.titles.length ≠ 0 := by
    intro h; exact htitles (List.eq_nil_of_length_eq_zero h)
  have hphase1 : phase1 g s = ([], .ok s) := by simp [phase1, hlen0]
  have hrestlen : (s.titles.drop s.unlinkedNotes.length).length
      = s.titles.length - s.unlinkedNotes.length := by simp
  have hokrest : ∀ j (h : j < (s.titles.drop s.unlinkedNotes.length).length),
      (g.genNote (s.unlinkedNotes.length + j) s.inputText
        (s.titles.drop s.unlinkedNotes.length)[j]).isOk := by
    intro j hj
    have hj' : j < s.titles.length - s.unlinkedNotes.length := by
      rwa [hrestlen] at hj
    have hjk : s.unlinkedNotes.length + j < s.titles.length := by omega
    have hgd : (s.titles.drop s.unlinkedNotes.length)[j] =
        s.titles[s.unlinkedNotes.length + j] := List.getElem_drop _
    rw [hgd]
    exact hok _ hjk (by omega)
  obtain ⟨notes, hnotes⟩ := genLoop_ok_of_isOk g s.inputText s.titles.length
    (s.titles.drop s.unlinkedNotes.length) s.unlinkedNotes.length
    s.unlinkedNotes hokrest
  have hsplit : ∀ e ∈ (runGrok g s).1,
      e ∈ (genLoop g s.inputText s.titles.length s.unlinkedNotes.length
        (s.titles.drop s.unlinkedNotes.length) s.unlinkedNotes).1 ∨
      e ∈ (phase3 g { s with unlinkedNotes := notes }).1 ∨
      ∃ msg, e = .progress (errorUpdate msg) := by
    intro e he
    rcases hp3 : (phase3 g { s with unlinkedNotes := notes }).2 with e3 | fns <;>
      simp only [runGrok, runFrom, hphase1, hnotes, hp3, List.nil_append,
        List.mem_append, List.mem_cons, List.not_mem_nil, or_false] at he <;>
      tauto
  have hshape : ∀ e ∈ (runGrok g s).1,
      (∃ st, e = .progress (stageUpdate st)) ∨
      (∃ j t, e = .genCall j s.inputText t) ∨
      (∃ new, e = .progress (notesUpdate (s.unlinkedNotes ++ new))) ∨
      (∃ ns, e = .interlinkCall ns) ∨
      (∃ fns, e = .progress (completeUpdate fns)) ∨
      (∃ msg, e = .progress (errorUpdate msg)) := by
    intro e he
    rcases hsplit e he with h | h | ⟨msg, h⟩
    · rcases genLoop_event_shape g s.inputText s.titles.length _ _ _ e h with
        ⟨st, h1⟩ | ⟨j, t, h1⟩ | ⟨new, h1, _⟩
      · exact Or.inl ⟨st, h1⟩
      · exact Or.inr (Or.inl ⟨j, t, h1⟩)
      · exact Or.inr (Or.inr (Or.inl ⟨new, h1⟩))
    · rcases phase3_event_shape g _ e h with h1 | h1 | ⟨fns, h1⟩
      · exact Or.inl ⟨stage3, h1⟩
      · exact Or.inr (Or.inr (Or.inr (Or.inl ⟨_, h1⟩)))
      · exact Or.inr (Or.inr (Or.inr (Or.inr (Or.inl ⟨fns, h1⟩))))
    · exact Or.inr (Or.inr (Or.inr (Or.inr (Or.inr ⟨msg, h⟩))))
  have hupd : ∀ u ∈ updatesOf (runGrok g s).1, u.titles = none ∧
      ∀ v, u.unlinkedNotes = some v → s.unlinkedNotes <+: v := by
    intro u hu
    rcases hshape _ (mem_updatesOf.mp hu) with
      ⟨st, h⟩ | ⟨j, t, h⟩ | ⟨new, h⟩ | ⟨ns, h⟩ | ⟨fns, h⟩ | ⟨msg, h⟩
    · injection h with h2; subst h2
      exact ⟨rfl, by intro v hv; cases hv⟩
    · simp at h
    · injection h with h2; subst h2
      refine ⟨rfl, ?_⟩
      intro v hv
      have hv2 : s.unlinkedNotes ++ new = v := by
        simpa [notesUpdate] using hv
      rw [← hv2]
      exact List.prefix_append _ _
    · simp at h
    · injection h with h2; subst h2
      exact ⟨rfl, by intro v hv; cases hv⟩
    · injection h with h2; subst h2
      exact ⟨rfl, by intro v hv; cases hv⟩
  refine ⟨?_, ?_, ?_, ?_⟩
  · intro e he inp
    rcases hshape e he with
      ⟨st, h⟩ | ⟨j, t, h⟩ | ⟨new, h⟩ | ⟨ns, h⟩ | ⟨fns, h⟩ | ⟨msg, h⟩ <;>
      subst h <;> simp
  · exact applyUpdates_titles_none s _ (fun u hu => (hupd u hu).1)
  · rcases hp3 : (phase3 g { s with unlinkedNotes := notes }).2 with e3 | fns <;>
      simp only [runGrok, runFrom, hphase1, hnotes, hp3, List.nil_append,
        List.filterMap_append] <;>
      rw [genLoop_calls g s.inputText s.titles.length _ _ _ hokrest,
        phase3_no_genCalls] <;>
      simp [genIdx, hrestlen]
  · exact fun u hu => (hupd u hu).2

theorem phase3_no_unlinkedVals (g : Gateway) (s2 : ProcessingState) :
    unlinkedVals (phase3 g s2).1 = [] := by
  rw [unlinkedVals, List.filterMap_eq_nil_iff]
  intro e he
  rcases phase3_event_shape g s2 e he with h | h | ⟨fns, h⟩ <;> subst h <;> rfl

/-- Phases 2-3 only grow `unlinkedNotes` by appending: every update emitted
by `runFrom` leaves `titles` alone, and every `unlinkedNotes` value it
carries extends the initial list and is no longer than `titles`; the value
moreover stays title-aligned whenever no phase-2 reply carried a stray
`title` property (a reply `title` overwrites the loop title and can break
alignment); successive emitted values grow by appending. -/
theorem runFrom_inv (g : Gateway) (s1 : ProcessingState)
    (halign : s1.unlinkedNotes.map (fun n => n.title) <+: s1.titles) :
    (∀ u ∈ updatesOf (runFrom g s1).1, u.titles = none ∧
      ∀ v, u.unlinkedNotes = some v →
        s1.unlinkedNotes <+: v ∧ v.length ≤ s1.titles.length ∧
        (cleanTitles g → v.map (fun n => n.title) <+: s1.titles)) ∧
    List.Chain' (fun a b => a <+: b)
      (s1.unlinkedNotes :: unlinkedVals (runFrom g s1).1) := by
  have hmapeq : s1.unlinkedNotes.map (fun n => n.title) =
      s1.titles.take (s1.unlinkedNotes.length) := by
    have := List.prefix_iff_eq_take.mp halign
    simpa using this
  have hk : s1.unlinkedNotes.length ≤ s1.titles.length := by
    simpa using halign.length_le
  have hsplit : ∀ e ∈ (runFrom g s1).1,
      e ∈ (genLoop g s1.inputText s1.titles.length s1.unlinkedNotes.length
        (s1.titles.drop s1.unlinkedNotes.length) s1.unlinkedNotes).1 ∨
      (∃ s2, e ∈ (phase3 g s2).1) ∨
      ∃ msg, e = .progress (errorUpdate msg) := by
    intro e he
    rcases hgen : (genLoop g s1.inputText s1.titles.length s1.unlinkedNotes.length
        (s1.titles.drop s1.unlinkedNotes.length) s1.unlinkedNotes).2 with e2 | notes
    · simp only [runFrom, hgen, List.mem_append, List.mem_cons,
        List.not_mem_nil, or_false] at he
      rcases he with he | he
      · exact Or.inl he
      · exact Or.inr (Or.inr ⟨e2, he⟩)
    · rcases hp3 : (phase3 g { s1 with unlinkedNotes := notes }).2 with e3 | fns <;>
        simp only [runFrom, hgen, hp3, List.mem_append, List.mem_cons,
          List.not_mem_nil, or_false] at he
      · rcases he with (he | he) | he
        · exact Or.inl he
        · exact Or.inr (Or.inl ⟨_, he⟩)
        · exact Or.inr (Or.inr ⟨e3, he⟩)
      · rcases he with he | he
        · exact Or.inl he
        · exact Or.inr (Or.inl ⟨_, he⟩)
  constructor
  · intro u hu
    rcases hsplit _ (mem_updatesOf.mp hu) with h | ⟨s2, h⟩ | ⟨msg, h⟩
    · rcases genLoop_event_shape g s1.inputText s1.titles.length _ _ _ _ h with
        ⟨st, h1⟩ | ⟨j, t, h1⟩ | ⟨new, h1, hlen, hpre⟩
      · injection h1 with h2; subst h2
        exact ⟨rfl, by intro v hv; cases hv⟩
      · simp at h1
      · injection h1 with h2; subst h2
        refine ⟨rfl, ?_⟩
        intro v hv
        have hv2 : s1.unlinkedNotes ++ new = v := by
          simpa [notesUpdate] using hv
        subst hv2
        refine ⟨List.prefix_append _ _, ?_, ?_⟩
        · have hd : (s1.titles.drop s1.unlinkedNotes.length).length =
              s1.titles.length - s1.unlinkedNotes.length := by simp
          rw [hd] at hlen
          simp only [List.length_append]
          omega
        · intro hclean
          rw [List.map_append, hmapeq]
          have hstep : s1.titles.take s1.unlinkedNotes.length ++
              new.map (fun n => n.title) <+:
              s1.titles.take s1.unlinkedNotes.length ++
              s1.titles.drop s1.unlinkedNotes.length :=
            (List.prefix_append_right_inj _).mpr (hpre hclean)
          simpa [List.take_append_drop] using hstep
    · rcases phase3_event_shape g s2 _ h with h1 | h1 | ⟨fns, h1⟩
      · injection h1 with h2; subst h2
        exact ⟨rfl, by intro v hv; cases hv⟩
      · simp at h1
      · injection h1 with h2; subst h2
        exact ⟨rfl, by intro v hv; cases hv⟩
    · injection h with h2; subst h2
      exact ⟨rfl, by intro v hv; cases hv⟩
  · rcases hgen : (genLoop g s1.inputText s1.titles.length s1.unlinkedNotes.length
        (s1.titles.drop s1.unlinkedNotes.length) s1.unlinkedNotes).2 with e2 | notes
    · have hch := genLoop_chain g s1.inputText s1.titles.length
        (s1.titles.drop s1.unlinkedNotes.length) s1.unlinkedNotes.length
        s1.unlinkedNotes
      simp only [runFrom, hgen, unlinkedVals_append]
      simpa [unlinkedVals, errorUpdate] using hch
    · have hch := genLoop_chain g s1.inputText s1.titles.length
        (s1.titles.drop s1.unlinkedNotes.length) s1.unlinkedNotes.length
        s1.unlinkedNotes
      rcases hp3 : (phase3 g { s1 with unlinkedNotes := notes }).2 with e3 | fns <;>
        simp only [runFrom, hgen, hp3, unlinkedVals_append,
          phase3_no_unlinkedVals] <;>
        simpa [unlinkedVals, errorUpdate] using hch

/-- C9 (amended): any orchestrator run makes `unlinkedNotes` grow only by
appending — if on entry `unlinkedNotes.map title` is a prefix of `titles`,
then, whether the run succeeds or fails, the initial `unlinkedNotes` is a
prefix of the persisted one, the chain of emitted values is
prefix-increasing, and the persisted length never exceeds the persisted
`titles.length`.  The index-alignment `unlinkedNotes[j].title = titles[j]`
is preserved only for runs in which no phase-2 reply carries a stray `title`
property: the note is built as `{ title, ...body }`, so a `title` key in the
unvalidated parsed reply overwrites the loop title and can break
alignment. -/
theorem claim_C9_title_alignment (g : Gateway) (s : ProcessingState)
    (halign : s.unlinkedNotes.map (fun n => n.title) <+: s.titles) :
    s.unlinkedNotes <+: (persistedGrok g s).unlinkedNotes ∧
    (persistedGrok g s).unlinkedNotes.length ≤
      (persistedGrok g s).titles.length ∧
    List.Chain' (fun a b => a <+: b)
      (s.unlinkedNotes :: unlinkedVals (runGrok g s).1) ∧
    (cleanTitles g →
      (persistedGrok g s).unlinkedNotes.map (fun n => n.title) <+:
        (persistedGrok g s).titles) := by
  have hfinish : ∀ T U, (persistedGrok g s).titles = T →
      (persistedGrok g s).unlinkedNotes = U →
      s.unlinkedNotes <+: U → U.length ≤ T.length →
      (cleanTitles g → U.map (fun n => n.title) <+: T) →
      List.Chain' (fun a b => a <+: b)
        (s.unlinkedNotes :: unlinkedVals (runGrok g s).1) →
      s.unlinkedNotes <+: (persistedGrok g s).unlinkedNotes ∧
      (persistedGrok g s).unlinkedNotes.length ≤
        (persistedGrok g s).titles.length ∧
      List.Chain' (fun a b => a <+: b)
        (s.unlinkedNotes :: unlinkedVals (runGrok g s).1) ∧
      (cleanTitles g →
        (persistedGrok g s).unlinkedNotes.map (fun n => n.title) <+:
          (persistedGrok g s).titles) := by
    intro T U hT hU hext hlen hal hch
    refine ⟨by rw [hU]; exact hext, by rw [hU, hT]; exact hlen, hch, ?_⟩
    intro hc
    rw [hU, hT]
    exact hal hc
  by_cases h0 : s.titles.length = 0
  · -- phase 1 runs
    have hunl : s.unlinkedNotes = [] := by
      have hTnil : s.titles = [] := List.eq_nil_of_length_eq_zero h0
      rw [hTnil] at halign
      have := List.prefix_nil.mp halign
      simpa using this
    rcases hext : g.extract s.inputText with e1 | ts
    · -- extraction fails: only the processing and error updates are emitted
      have hphase1 : phase1 g s =
          ([Event.progress (processingUpdate stage1),
            Event.extractCall s.inputText], .error e1) := by
        simp [phase1, h0, hext]
      have hrun : runGrok g s =
          ([Event.progress (processingUpdate stage1),
            Event.extractCall s.inputText,
            Event.progress (errorUpdate e1)], .error (grokFail e1)) := by
        simp [runGrok, hphase1]
      refine hfinish s.titles s.unlinkedNotes ?_ ?_ (List.prefix_refl _)
        (by simpa using halign.length_le) (fun _ => halign) ?_
      · simp [persistedGrok, hrun, updatesOf, applyUpdates, applyUpdate,
          processingUpdate, errorUpdate]
      · simp [persistedGrok, hrun, updatesOf, applyUpdates, applyUpdate,
          processingUpdate, errorUpdate]
      · rw [hrun]
        simp [unlinkedVals, processingUpdate, errorUpdate]
    · -- extraction succeeds with titles ts
      have hphase1 : phase1 g s =
          ([Event.progress (processingUpdate stage1),
            Event.extractCall s.inputText,
            Event.progress (titlesUpdate ts)], .ok { s with titles := ts }) := by
        simp [phase1, h0, hext]
      have hrun1 : (runGrok g s).1 =
          [Event.progress (processingUpdate stage1),
            Event.extractCall s.inputText,
            Event.progress (titlesUpdate ts)] ++
          (runFrom g { s with titles := ts }).1 := by
        simp [runGrok, hphase1]
      have halign1 : ({ s with titles := ts } :
          ProcessingState).unlinkedNotes.map (fun n => n.title) <+:
          ({ s with titles := ts } : ProcessingState).titles := by
        simp [hunl]
      have hinv := runFrom_inv g { s with titles := ts } halign1
      have hupds : updatesOf (runGrok g s).1 =
          processingUpdate stage1 :: titlesUpdate ts ::
            updatesOf (runFrom g { s with titles := ts }).1 := by
        rw [hrun1]
        simp [updatesOf]
      have hstep2 : applyUpdate (applyUpdate s (processingUpdate stage1))
          (titlesUpdate ts) =
          { s with titles := ts, status := Status.processing, stage := stage1 } := by
        simp [applyUpdate, processingUpdate, titlesUpdate]
      have hper : persistedGrok g s = applyUpdates
          { s with titles := ts, status := Status.processing, stage := stage1 }
          (updatesOf (runFrom g { s with titles := ts }).1) := by
        rw [persistedGrok, hupds]
        simp only [applyUpdates, List.foldl_cons]
        rw [hstep2]
      have hTfin : (persistedGrok g s).titles = ts := by
        rw [hper, applyUpdates_titles_none _ _ (fun u hu => (hinv.1 u hu).1)]
      have hUinv : s.unlinkedNotes <+: (persistedGrok g s).unlinkedNotes ∧
          (persistedGrok g s).unlinkedNotes.length ≤ ts.length ∧
          (cleanTitles g →
            (persistedGrok g s).unlinkedNotes.map (fun n => n.title) <+: ts) := by
        rw [hper]
        refine applyUpdates_unlinked_inv
          (fun v => s.unlinkedNotes <+: v ∧ v.length ≤ ts.length ∧
            (cleanTitles g → v.map (fun n => n.title) <+: ts))
          { s with titles := ts, status := Status.processing, stage := stage1 }
          (updatesOf (runFrom g { s with titles := ts }).1)
          ⟨List.prefix_refl _, by simp [hunl], fun _ => by simp [hunl]⟩ ?_
        intro u hu v hv
        exact (hinv.1 u hu).2 v hv
      refine hfinish ts (persistedGrok g s).unlinkedNotes hTfin rfl
        hUinv.1 hUinv.2.1 hUinv.2.2 ?_
      · rw [hrun1]
        have hch := hinv.2
        simp only [unlinkedVals_append]
        have hhead : unlinkedVals
            [Event.progress (processingUpdate stage1),
              Event.extractCall s.inputText,
              Event.progress (titlesUpdate ts)] = [] := by
          simp [unlinkedVals, processingUpdate, titlesUpdate]
        rw [hhead]
        simpa [hunl] using hch
  · -- phase 1 is skipped
    have hphase1 : phase1 g s = ([], .ok s) := by simp [phase1, h0]
    have hrun1 : (runGrok g s).1 = (runFrom g s).1 := by
      simp [runGrok, hphase1]
    have hinv := runFrom_inv g s halign
    have hper : persistedGrok g s = applyUpdates s (updatesOf (runFrom g s).1) := by
      rw [persistedGrok, hrun1]
    have hTfin : (persistedGrok g s).titles = s.titles := by
      rw [hper, applyUpdates_titles_none _ _ (fun u hu => (hinv.1 u hu).1)]
    have hUinv : s.unlinkedNotes <+: (persistedGrok g s).unlinkedNotes ∧
        (persistedGrok g s).unlinkedNotes.length ≤ s.titles.length ∧
        (cleanTitles g →
          (persistedGrok g s).unlinkedNotes.map (fun n => n.title) <+:
            s.titles) := by
      rw [hper]
      exact applyUpdates_unlinked_inv
        (fun v => s.unlinkedNotes <+: v ∧ v.length ≤ s.titles.length ∧
          (cleanTitles g → v.map (fun n => n.title) <+: s.titles))
        _ _ ⟨List.prefix_refl _, by simpa using halign.length_le,
          fun _ => halign⟩ (fun u hu v hv => (hinv.1 u hu).2 v hv)
    refine hfinish s.titles (persistedGrok g s).unlinkedNotes hTfin rfl
      hUinv.1 hUinv.2.1 hUinv.2.2 ?_
    rw [hrun1]
    exact hinv.2

theorem phase1_ok_fields (g : Gateway) (s s1 : ProcessingState)
    (h : (phase1 g s).2 = .ok s1) :
    s1.inputText = s.inputText ∧ s1.unlinkedNotes = s.unlinkedNotes ∧
    s1.status = s.status ∧ s1.finalNotes = s.finalNotes ∧ s1.error = s.error := by
  by_cases h0 : s.titles.length = 0
  · rcases hext : g.extract s.inputText with e1 | ts <;>
      simp only [phase1, h0, if_true, hext] at h
    · cases h
    · have h2 : ({ s with titles := ts } : ProcessingState) = s1 := by
        simpa using h
      rw [← h2]
      exact ⟨rfl, rfl, rfl, rfl, rfl⟩
  · simp only [phase1, h0, if_false] at h
    have h2 : s = s1 := by simpa using h
    rw [← h2]
    exact ⟨rfl, rfl, rfl, rfl, rfl⟩

theorem phase1_error_spec (g : Gateway) (s : ProcessingState) (e : String)
    (h : (phase1 g s).2 = .error e) :
    g.extract s.inputText = .error e ∧
    (phase1 g s).1 = [Event.progress (processingUpdate stage1),
      Event.extractCall s.inputText] := by
  by_cases h0 : s.titles.length = 0
  · rcases hext : g.extract s.inputText with e1 | ts
    · simp only [phase1, h0, if_true, hext] at h
      have he : e1 = e := by simpa using h
      subst he
      exact ⟨rfl, by simp [phase1, h0, hext]⟩
    · simp only [phase1, h0, if_true, hext] at h
      cases h
  · simp only [phase1, h0, if_false] at h
    cases h

theorem phase3_ok_spec (g : Gateway) (s2 : ProcessingState) (fns : List Note)
    (hne : ¬(s2.status = Status.completed ∧ s2.finalNotes.length ≠ 0))
    (h : (phase3 g s2).2 = .ok fns) :
    ∃ linked, g.interlink s2.unlinkedNotes = .ok linked ∧
      fns = assignIds 0 linked ∧
      (phase3 g s2).1 = [Event.progress (stageUpdate stage3),
        Event.interlinkCall s2.unlinkedNotes,
        Event.progress (completeUpdate (assignIds 0 linked))] := by
  rcases hi : g.interlink s2.unlinkedNotes with eI | linked <;>
    simp only [phase3, hne, if_false, hi] at h ⊢
  · cases h
  · exact ⟨linked, rfl, by simpa using h.symm, rfl⟩

/-- C2 (amended): for a session in which every title already has its note,
phase 3 is invoked iff `status ≠ 'completed'` or `finalNotes` is empty (the
code guard `status !== 'completed' || finalNotes.length === 0`); only when
`status = 'completed'` and `finalNotes` is non-empty does the run perform no
interlink call and return `finalNotes` unchanged with an empty trace. -/
theorem claim_C2_phase3_guard (g : Gateway) (s : ProcessingState)
    (htitles : s.titles ≠ [])
    (hcomplete : s.unlinkedNotes.length = s.titles.length) :
    ((∃ ns, Event.interlinkCall ns ∈ (runGrok g s).1) ↔
      ¬(s.status = Status.completed ∧ s.finalNotes ≠ [])) ∧
    (s.status = Status.completed → s.finalNotes ≠ [] →
      runGrok g s = ([], .ok s.finalNotes)) := by
  have hlen0 : s.titles.length ≠ 0 := by
    intro h; exact htitles (List.eq_nil_of_length_eq_zero h)
  have hphase1 : phase1 g s = ([], .ok s) := by simp [phase1, hlen0]
  have hgen : genLoop g s.inputText s.titles.length s.unlinkedNotes.length
      (s.titles.drop s.unlinkedNotes.length) s.unlinkedNotes =
      ([], .ok s.unlinkedNotes) := by
    rw [hcomplete, List.drop_length]
    rfl
  have hS : ({ s with unlinkedNotes := s.unlinkedNotes } : ProcessingState) = s := rfl
  constructor
  · constructor
    · rintro ⟨ns, hmem⟩ hskip
      have hfne : s.finalNotes.length ≠ 0 := by
        intro hc; exact hskip.2 (List.eq_nil_of_length_eq_zero hc)
      have hp3 : phase3 g s = ([], .ok s.finalNotes) := by
        simp [phase3, hskip.1, hfne]
      have hempty : (runGrok g s).1 = [] := by
        simp [runGrok, runFrom, hphase1, hgen, hS, hp3]
      rw [hempty] at hmem
      cases hmem
    · intro hns
      refine ⟨s.unlinkedNotes, ?_⟩
      have hns' : ¬(s.status = Status.completed ∧ s.finalNotes.length ≠ 0) := by
        intro hc
        exact hns ⟨hc.1, fun hnil => hc.2 (by rw [hnil]; rfl)⟩
      rcases hi : g.interlink s.unlinkedNotes with eI | linked <;>
        simp [runGrok, runFrom, hphase1, hgen, hS, phase3, hns, hns', hi]
  · intro hc1 hc2
    have hfne : s.finalNotes.length ≠ 0 := by
      intro hc; exact hc2 (List.eq_nil_of_length_eq_zero hc)
    have hp3 : phase3 g s = ([], .ok s.finalNotes) := by
      simp [phase3, hc1, hfne]
    simp [runGrok, runFrom, hphase1, hgen, hS, hp3]

/-- The session of the C2 counterexample: every title has its unlinked note,
`finalNotes` is non-empty, but `status` is `'error'`. -/
def sC2 : ProcessingState :=
  ⟨Status.error, "", "book text", ["A"],
    [⟨"A", "alpha content", ["qa"], "p. 1"⟩],
    [⟨"old_id", "A", "stale interlinked content", ["qa"], "p. 1"⟩],
    some "previous failure"⟩

/-- Oracle for the C2 counterexample run. -/
def gC2 : Gateway :=
  ⟨fun _ => .ok ["A"], fun _ _ _ => .ok ⟨none, "body", ["q"], "p"⟩, fun _ => .ok []⟩

/-- C2 counterexample: on `sC2` (non-empty `finalNotes`, every title covered)
the run still performs an interlink call and overwrites `finalNotes`,
refuting "when finalNotes is non-empty the run performs no interlink call and
leaves finalNotes unchanged". -/
theorem claim_C2_counterexample :
    sC2.finalNotes ≠ [] ∧
    Event.interlinkCall sC2.unlinkedNotes ∈ (runGrok gC2 sC2).1 ∧
    (persistedGrok gC2 sC2).finalNotes ≠ sC2.finalNotes := by
  refine ⟨by decide, by decide, by decide⟩

/-- C3: the final notes of a completed run carry the orchestrator-assigned
ids: `finalNotes[i].id = "note_" ++ zero-padded(i, 3)` regardless of the ids
in the model's interlink reply, and consequently all ids are distinct. -/
theorem claim_C3_id_determinism (g : Gateway) (s : ProcessingState)
    (fns : List Note) (hfe : s.finalNotes = [])
    (hok : (runGrok g s).2 = .ok fns) :
    (∀ i (h : i < fns.length), fns[i].id = noteId i) ∧
    (fns.map (fun n => n.id)).Nodup := by
  rcases hp1 : (phase1 g s).2 with e1 | s1
  · have hr : (runGrok g s).2 = .error (grokFail e1) := by simp [runGrok, hp1]
    rw [hr] at hok; cases hok
  · obtain ⟨hin, hun, hst, hfn, herr⟩ := phase1_ok_fields g s s1 hp1
    have hres : (runGrok g s).2 = (runFrom g s1).2 := by simp [runGrok, hp1]
    rw [hres] at hok
    rcases hgen : (genLoop g s1.inputText s1.titles.length s1.unlinkedNotes.length
        (s1.titles.drop s1.unlinkedNotes.length) s1.unlinkedNotes).2 with e2 | notes
    · have hr : (runFrom g s1).2 = .error (grokFail e2) := by simp [runFrom, hgen]
      rw [hr] at hok; cases hok
    · have hne : ¬(({ s1 with unlinkedNotes := notes } : ProcessingState).status
          = Status.completed ∧
          ({ s1 with unlinkedNotes := notes } :
            ProcessingState).finalNotes.length ≠ 0) := by
        intro hc
        have h2 : s1.finalNotes.length ≠ 0 := hc.2
        rw [hfn, hfe] at h2
        exact h2 rfl
      rcases hp3 : (phase3 g { s1 with unlinkedNotes := notes }).2 with e3 | fns'
      · have hr : (runFrom g s1).2 = .error (grokFail e3) := by
          simp [runFrom, hgen, hp3]
        rw [hr] at hok; cases hok
      · have hfns : fns' = fns := by
          have hr : (runFrom g s1).2 = .ok fns' := by simp [runFrom, hgen, hp3]
          rw [hr] at hok
          exact Except.ok.inj hok
        obtain ⟨linked, hi, hassign, _⟩ := phase3_ok_spec g _ fns' hne hp3
        subst hfns
        subst hassign
        constructor
        · intro i h
          have := assignIds_id_get linked 0 i h
          simpa using this
        · exact assignIds_nodup_ids linked

/-- Session of the C3 witness: one note pending interlink. -/
def sC3 : ProcessingState :=
  ⟨Status.processing, "", "book text", ["A"],
    [⟨"A", "alpha content", ["qa"], "p. 1"⟩], [], none⟩

/-- Oracle of the C3 witness: the interlink reply proposes duplicate junk
ids, which the orchestrator overrides. -/
def gC3 : Gateway :=
  ⟨fun _ => .ok ["A"], fun _ _ _ => .ok ⟨none, "body", ["q"], "p"⟩,
    fun _ => .ok [⟨"model-id", "A", "alpha [[B]]", ["qa"], "p. 1"⟩,
      ⟨"model-id", "B", "beta", ["qb"], "p. 2"⟩]⟩

/-- The final notes the C3 witness run produces. -/
def fnsC3 : List Note :=
  [⟨"note_000", "A", "alpha [[B]]", ["qa"], "p. 1"⟩,
    ⟨"note_001", "B", "beta", ["qb"], "p. 2"⟩]

theorem claim_C3_id_determinism_witness :
    sC3.finalNotes = [] ∧ (runGrok gC3 sC3).2 = .ok fnsC3 ∧
    (fnsC3.map (fun n => n.id)).Nodup :=
  ⟨rfl, by rfl, (claim_C3_id_determinism gC3 sC3 fnsC3 rfl (by rfl)).2⟩

theorem phase1_event_shape (g : Gateway) (s : ProcessingState) :
    ∀ e ∈ (phase1 g s).1,
      e = .progress (processingUpdate stage1) ∨ e = .extractCall s.inputText ∨
      ∃ ts, e = .progress (titlesUpdate ts) := by
  intro e he
  by_cases h0 : s.titles.length = 0
  · rcases hext : g.extract s.inputText with e1 | ts <;>
      simp only [phase1, h0, if_true, hext, List.mem_append, List.mem_cons,
        List.not_mem_nil, or_false] at he <;> tauto
  · simp [phase1, h0] at he

/-- C7 (amended): on phase-3 success the final progress update sets
`status = 'completed'`, sets `stage` to the empty string and carries the
final notes — but it carries no `error` field at all: the Session's `error`
is left exactly as it was (in the application it is the caller, `runProcess`
in App.tsx, that resets `error` when a run starts, not this update). -/
theorem claim_C7_completion_update (g : Gateway) (s : ProcessingState)
    (fns : List Note) (hok : (runGrok g s).2 = .ok fns)
    (hrun3 : ¬(s.status = Status.completed ∧ s.finalNotes ≠ [])) :
    (runGrok g s).1.getLast? = some (.progress (completeUpdate fns)) ∧
    (completeUpdate fns).status = some Status.completed ∧
    (completeUpdate fns).stage = some "" ∧
    (completeUpdate fns).error = none ∧
    (persistedGrok g s).error = s.error := by
  rcases hp1 : (phase1 g s).2 with e1 | s1
  · exfalso
    have hr : (runGrok g s).2 = .error (grokFail e1) := by simp [runGrok, hp1]
    rw [hr] at hok; cases hok
  obtain ⟨hin, hun, hst, hfn, herr⟩ := phase1_ok_fields g s s1 hp1
  have hres : (runGrok g s).2 = (runFrom g s1).2 := by simp [runGrok, hp1]
  rw [hres] at hok
  rcases hgen : (genLoop g s1.inputText s1.titles.length s1.unlinkedNotes.length
      (s1.titles.drop s1.unlinkedNotes.length) s1.unlinkedNotes).2 with e2 | notes
  · exfalso
    have hr : (runFrom g s1).2 = .error (grokFail e2) := by simp [runFrom, hgen]
    rw [hr] at hok; cases hok
  have hne : ¬(({ s1 with unlinkedNotes := notes } : ProcessingState).status
      = Status.completed ∧
      ({ s1 with unlinkedNotes := notes } :
        ProcessingState).finalNotes.length ≠ 0) := by
    intro hc
    refine hrun3 ⟨?_, ?_⟩
    · have h2 : s1.status = Status.completed := hc.1
      rw [hst] at h2; exact h2
    · have h2 : s1.finalNotes.length ≠ 0 := hc.2
      rw [hfn] at h2
      intro hnil
      exact h2 (by rw [hnil]; rfl)
  rcases hp3 : (phase3 g { s1 with unlinkedNotes := notes }).2 with e3 | fns'
  · exfalso
    have hr : (runFrom g s1).2 = .error (grokFail e3) := by simp [runFrom, hgen, hp3]
    rw [hr] at hok; cases hok
  have hfns : fns' = fns := by
    have hr : (runFrom g s1).2 = .ok fns' := by simp [runFrom, hgen, hp3]
    rw [hr] at hok
    exact Except.ok.inj hok
  obtain ⟨linked, hi, hassign, hp3evs⟩ := phase3_ok_spec g _ fns' hne hp3
  have hcomp : assignIds 0 linked = fns := by rw [← hassign, hfns]
  have htr : (runGrok g s).1 = (phase1 g s).1 ++
      ((genLoop g s1.inputText s1.titles.length s1.unlinkedNotes.length
        (s1.titles.drop s1.unlinkedNotes.length) s1.unlinkedNotes).1 ++
      [Event.progress (stageUpdate stage3), Event.interlinkCall notes,
        Event.progress (completeUpdate (assignIds 0 linked))]) := by
    simp [runGrok, runFrom, hp1, hgen, hp3, hp3evs]
  have hlast : (runGrok g s).1.getLast? =
      some (.progress (completeUpdate (assignIds 0 linked))) := by
    rw [htr]
    simp [List.getLast?_append]
  refine ⟨by rw [hlast, hcomp], rfl, rfl, rfl, ?_⟩
  have hupd : ∀ u ∈ updatesOf (runGrok g s).1, u.error = none := by
    intro u hu
    have he := mem_updatesOf.mp hu
    rw [htr] at he
    simp only [List.mem_append, List.mem_cons, List.not_mem_nil, or_false] at he
    rcases he with h | h | h | h | h
    · rcases phase1_event_shape g s _ h with h1 | h1 | ⟨ts, h1⟩
      · injection h1 with h2; subst h2; rfl
      · simp at h1
      · injection h1 with h2; subst h2; rfl
    · rcases genLoop_event_shape g s1.inputText s1.titles.length _ _ _ _ h with
        ⟨st, h1⟩ | ⟨j, t, h1⟩ | ⟨new, h1, _⟩
      · injection h1 with h2; subst h2; rfl
      · simp at h1
      · injection h1 with h2; subst h2; rfl
    · injection h with h2; subst h2; rfl
    · simp at h
    · injection h with h2; subst h2; rfl
  exact applyUpdates_error_none s _ hupd

/-- Session of the C7 counterexample: an errored session whose notes are all
generated and whose `finalNotes` is empty, carrying a stale error message. -/
def sC7 : ProcessingState :=
  ⟨Status.error, "stuck", "book text", ["A"],
    [⟨"A", "alpha content", ["qa"], "p. 1"⟩], [], some "previous failure"⟩

/-- Oracle of the C7 counterexample: the interlink call succeeds. -/
def gC7 : Gateway :=
  ⟨fun _ => .ok ["A"], fun _ _ _ => .ok ⟨none, "body", ["q"], "p"⟩,
    fun _ => .ok [⟨"x", "A", "alpha", ["qa"], "p. 1"⟩]⟩

/-- C7 counterexample: the run completes (phase 3 succeeds, persisted status
is `'completed'` and stage is cleared) yet the Session's `error` field still
holds the stale message — the final update does not clear it, refuting
"clears the Session's error field". -/
theorem claim_C7_counterexample :
    (persistedGrok gC7 sC7).status = Status.completed ∧
    (persistedGrok gC7 sC7).stage = "" ∧
    (persistedGrok gC7 sC7).error = some "previous failure" := by
  refine ⟨by rfl, by rfl, by rfl⟩

theorem claim_C7_completion_update_witness :
    ((runGrok gC7 sC7).2 = .ok [⟨"note_000", "A", "alpha", ["qa"], "p. 1"⟩]) ∧
    ¬(sC7.status = Status.completed ∧ sC7.finalNotes ≠ []) ∧
    (persistedGrok gC7 sC7).error = sC7.error := by
  refine ⟨by rfl, by decide, ?_⟩
  exact (claim_C7_completion_update gC7 sC7
    [⟨"note_000", "A", "alpha", ["qa"], "p. 1"⟩] (by rfl) (by decide)).2.2.2.2

/-- C6 (amended): whenever a phase call fails during a run, the run emits a
final progress update carrying `status = 'error'` and the thrown error's
message — non-empty provided the thrown message is non-empty (the code copies
`error.message` verbatim, so an empty thrown message is persisted empty) —
before re-throwing `"Failed to process book with Grok: " ++ message`; the
error update carries no `titles`, `unlinkedNotes`, `finalNotes` or `stage`
field, so the notes recorded by earlier updates are untouched by the failure
path; and a failed phase always surfaces as a thrown error (`.error`
result). -/
theorem claim_C6_error_propagation (g : Gateway) (s : ProcessingState)
    (hne : (∀ t e, g.extract t = .error e → e ≠ "") ∧
      (∀ i t ti e, g.genNote i t ti = .error e → e ≠ "") ∧
      (∀ ns e, g.interlink ns = .error e → e ≠ ""))
    (m : String) (hfail : (runGrok g s).2 = .error m) :
    ∃ d, d ≠ "" ∧ m = grokFail d ∧
      (runGrok g s).1.getLast? = some (.progress (errorUpdate d)) ∧
      (errorUpdate d).titles = none ∧ (errorUpdate d).unlinkedNotes = none ∧
      (errorUpdate d).finalNotes = none ∧ (errorUpdate d).stage = none ∧
      (persistedGrok g s).unlinkedNotes =
        (applyUpdates s ((updatesOf (runGrok g s).1).dropLast)).unlinkedNotes ∧
      (persistedGrok g s).status = Status.error ∧
      (persistedGrok g s).error = some d := by
  have key : ∃ evsB d, (runGrok g s).1 = evsB ++ [.progress (errorUpdate d)] ∧
      m = grokFail d ∧ d ≠ "" := by
    rcases hp1 : (phase1 g s).2 with e1 | s1
    · obtain ⟨hext, _⟩ := phase1_error_spec g s e1 hp1
      have hr : runGrok g s = ((phase1 g s).1 ++ [.progress (errorUpdate e1)],
          .error (grokFail e1)) := by
        simp [runGrok, hp1]
      refine ⟨(phase1 g s).1, e1, by rw [hr], ?_, hne.1 _ _ hext⟩
      have h2 := hfail
      rw [hr] at h2
      exact (Except.error.inj h2).symm
    · rcases hgen : (genLoop g s1.inputText s1.titles.length
          s1.unlinkedNotes.length (s1.titles.drop s1.unlinkedNotes.length)
          s1.unlinkedNotes).2 with e2 | notes
      · obtain ⟨j, t, hj⟩ := genLoop_error g s1.inputText s1.titles.length
          _ _ _ _ hgen
        have hr : runGrok g s = ((phase1 g s).1 ++
            ((genLoop g s1.inputText s1.titles.length s1.unlinkedNotes.length
              (s1.titles.drop s1.unlinkedNotes.length) s1.unlinkedNotes).1 ++
              [.progress (errorUpdate e2)]), .error (grokFail e2)) := by
          simp [runGrok, runFrom, hp1, hgen]
        refine ⟨(phase1 g s).1 ++ (genLoop g s1.inputText s1.titles.length
          s1.unlinkedNotes.length (s1.titles.drop s1.unlinkedNotes.length)
          s1.unlinkedNotes).1, e2, by rw [hr]; simp, ?_, hne.2.1 _ _ _ _ hj⟩
        have h2 := hfail
        rw [hr] at h2
        exact (Except.error.inj h2).symm
      · rcases hp3 : (phase3 g { s1 with unlinkedNotes := notes }).2 with e3 | fns
        · have hi := phase3_error g _ e3 hp3
          have hr : runGrok g s = ((phase1 g s).1 ++
              ((genLoop g s1.inputText s1.titles.length s1.unlinkedNotes.length
                (s1.titles.drop s1.unlinkedNotes.length) s1.unlinkedNotes).1 ++
              ((phase3 g { s1 with unlinkedNotes := notes }).1 ++
                [.progress (errorUpdate e3)])), .error (grokFail e3)) := by
            simp [runGrok, runFrom, hp1, hgen, hp3]
          refine ⟨(phase1 g s).1 ++ ((genLoop g s1.inputText s1.titles.length
            s1.unlinkedNotes.length (s1.titles.drop s1.unlinkedNotes.length)
            s1.unlinkedNotes).1 ++
            (phase3 g { s1 with unlinkedNotes := notes }).1), e3,
            by rw [hr]; simp, ?_, hne.2.2 _ _ hi⟩
          have h2 := hfail
          rw [hr] at h2
          exact (Except.error.inj h2).symm
        · exfalso
          have hr : (runGrok g s).2 = .ok fns := by
            simp [runGrok, runFrom, hp1, hgen, hp3]
          rw [hr] at hfail
          cases hfail
  obtain ⟨evsB, d, htr, hm, hd⟩ := key
  have hupds : updatesOf (runGrok g s).1 =
      updatesOf evsB ++ [errorUpdate d] := by
    rw [htr, updatesOf_append]
    rfl
  have hdrop : (updatesOf (runGrok g s).1).dropLast = updatesOf evsB := by
    rw [hupds]
    exact List.dropLast_concat
  refine ⟨d, hd, hm, ?_, rfl, rfl, rfl, rfl, ?_, ?_, ?_⟩
  · rw [htr, List.getLast?_concat]
  · rw [persistedGrok, hupds, List.dropLast_concat, applyUpdates_append]
    rfl
  · rw [persistedGrok, hupds, applyUpdates_append]
    rfl
  · rw [persistedGrok, hupds, applyUpdates_append]
    rfl

/-- Oracle whose extraction call throws an `Error` with an empty message
(thrown values in JavaScript may carry an empty `message`; the orchestrator's
`typeof error.message === 'string'` check accepts it). -/
def gC6e : Gateway :=
  ⟨fun _ => .error "", fun _ _ _ => .ok ⟨none, "", [], ""⟩, fun _ => .ok []⟩

/-- A fresh session: phase 1 will run and fail. -/
def sC6e : ProcessingState :=
  ⟨Status.idle, "", "book text", [], [], [], none⟩

/-- C6 counterexample: when the thrown error's message is empty, the emitted
error update and the persisted `error` field carry the empty string — the
claim's "non-empty human-readable error string" fails on the code. -/
theorem claim_C6_counterexample :
    (runGrok gC6e sC6e).1.getLast? = some (.progress (errorUpdate "")) ∧
    (persistedGrok gC6e sC6e).error = some "" ∧
    (persistedGrok gC6e sC6e).status = Status.error := by
  refine ⟨by rfl, by rfl, by rfl⟩

/-- Oracle of the C6 witness: extraction fails with a non-empty message. -/
def gC6 : Gateway :=
  ⟨fun _ => .error "network down", fun _ _ _ => .error "network down",
    fun _ => .error "network down"⟩

/-- Session of the C6 witness. -/
def sC6 : ProcessingState :=
  ⟨Status.idle, "", "book text", [], [], [], none⟩

theorem claim_C6_error_propagation_witness :
    (runGrok gC6 sC6).2 = .error (grokFail "network down") ∧
    ∃ d, d ≠ "" ∧
      (runGrok gC6 sC6).1.getLast? = some (.progress (errorUpdate d)) ∧
      (persistedGrok gC6 sC6).error = some d := by
  refine ⟨by rfl, ?_⟩
  obtain ⟨d, hd1, _, hd3, _, _, _, _, _, _, hd4⟩ :=
    claim_C6_error_propagation gC6 sC6
      ⟨fun t e h => by injection h with h2; rw [← h2]; decide,
        fun i t ti e h => by injection h with h2; rw [← h2]; decide,
        fun ns e h => by injection h with h2; rw [← h2]; decide⟩
      (grokFail "network down") (by rfl)
  exact ⟨d, hd1, hd3, hd4⟩

/-- Oracle of the C1 witness. -/
def gC1 : Gateway :=
  ⟨fun _ => .ok ["A", "B"], fun _ _ t => .ok ⟨none, "body of " ++ t, ["q"], "p"⟩,
    fun _ => .ok []⟩

/-- Session of the C1 witness: note 0 already generated, note 1 pending. -/
def sC1 : ProcessingState :=
  ⟨Status.error, "", "book text", ["A", "B"],
    [⟨"A", "alpha content", ["qa"], "p. 1"⟩], [], some "boom"⟩

theorem claim_C1_idempotent_resume_witness :
    sC1.titles ≠ [] ∧ sC1.unlinkedNotes.length ≤ sC1.titles.length ∧
    (runGrok gC1 sC1).1.filterMap genIdx =
      List.range' sC1.unlinkedNotes.length
        (sC1.titles.length - sC1.unlinkedNotes.length) := by
  refine ⟨by decide, by decide, ?_⟩
  exact (claim_C1_idempotent_resume gC1 sC1 (by decide) (by decide)
    (by decide)).2.2.1

theorem claim_C2_phase3_guard_witness :
    sC2.titles ≠ [] ∧ sC2.unlinkedNotes.length = sC2.titles.length ∧
    ((∃ ns, Event.interlinkCall ns ∈ (runGrok gC2 sC2).1) ↔
      ¬(sC2.status = Status.completed ∧ sC2.finalNotes ≠ [])) :=
  ⟨by decide, by decide, (claim_C2_phase3_guard gC2 sC2 (by decide) (by decide)).1⟩

/-- Oracle of the C9 witness: the second note generation fails mid-phase-2. -/
def gC9 : Gateway :=
  ⟨fun _ => .ok ["A", "B"],
    fun i _ t => if i = 1 then .error "boom" else .ok ⟨none, "body of " ++ t, ["q"], "p"⟩,
    fun _ => .ok []⟩

/-- Session of the C9 witness. -/
def sC9 : ProcessingState :=
  ⟨Status.processing, "", "book text", ["A", "B"],
    [⟨"A", "alpha content", ["qa"], "p. 1"⟩], [], none⟩

theorem claim_C9_title_alignment_witness :
    (sC9.unlinkedNotes.map (fun n => n.title) <+: sC9.titles) ∧
    sC9.unlinkedNotes <+: (persistedGrok gC9 sC9).unlinkedNotes ∧
    (persistedGrok gC9 sC9).unlinkedNotes.length ≤
      (persistedGrok gC9 sC9).titles.length ∧
    (persistedGrok gC9 sC9).unlinkedNotes.map (fun n => n.title) <+:
      (persistedGrok gC9 sC9).titles := by
  have h : sC9.unlinkedNotes.map (fun n => n.title) <+: sC9.titles :=
    ⟨["B"], by decide⟩
  have hclean : cleanTitles gC9 := by
    intro i t ti b hb
    by_cases hi : i = 1
    · simp [gC9, hi] at hb
    · simp only [gC9, hi, if_false] at hb
      have h2 := Except.ok.inj hb
      rw [← h2]
  obtain ⟨h1, h2, _, h4⟩ := claim_C9_title_alignment gC9 sC9 h
  exact ⟨h, h1, h2, h4 hclean⟩

/-- Session of the C9 counterexample: index-aligned on entry, note 1 still
to generate. -/
def sC9x : ProcessingState :=
  ⟨Status.processing, "", "book text", ["A", "B"],
    [⟨"A", "alpha content", ["qa"], "p. 1"⟩], [], none⟩

/-- Oracle of the C9 counterexample: the parsed phase-2 reply carries a
stray `title` property, `"X"`. -/
def gC9x : Gateway :=
  ⟨fun _ => .ok ["A", "B"],
    fun _ _ _ => .ok ⟨some "X", "body", ["q"], "p"⟩,
    fun _ => .ok []⟩

/-- C9 counterexample: the entry state is index-aligned, but the unvalidated
phase-2 reply's `title` property overwrites the loop title in
`unlinkedNotes.push({ title, ...body })`: the persisted
`unlinkedNotes[1].title` is `"X"` while `titles[1]` is `"B"`, so the
alignment invariant the claim asserts for every run fails. -/
theorem claim_C9_counterexample :
    (sC9x.unlinkedNotes.map (fun n => n.title) <+: sC9x.titles) ∧
    (persistedGrok gC9x sC9x).unlinkedNotes.map (fun n => n.title) =
      ["A", "X"] ∧
    (persistedGrok gC9x sC9x).titles = ["A", "B"] ∧
    ¬((persistedGrok gC9x sC9x).unlinkedNotes.map (fun n => n.title) <+:
      (persistedGrok gC9x sC9x).titles) := by
  refine ⟨⟨["B"], by decide⟩, by decide, by decide, by decide⟩

/-! ## C4: retry timing -/

theorem grokRetryGo_delays (oracle : Nat → Except String String)
    (maxR base : Nat) : ∀ fuel attempt,
    ∃ r, (grokRetryGo oracle maxR base fuel attempt).1 =
      (List.range' attempt r).map (fun j => base * 2 ^ j) := by
  intro fuel
  induction fuel with
  | zero => intro attempt; exact ⟨0, rfl⟩
  | succ f ih =>
    intro attempt
    rcases h : oracle attempt with e | sres
    · by_cases hc : isGrokRateLimit e ∧ attempt < maxR - 1
      · obtain ⟨r, hr⟩ := ih (attempt + 1)
        refine ⟨r + 1, ?_⟩
        simp [grokRetryGo, h, hc, hr, List.range']
      · exact ⟨0, by simp [grokRetryGo, h, hc]⟩
    · exact ⟨0, by simp [grokRetryGo, h]⟩

theorem geminiRetryGo_delays (oracle : Nat → Except String String)
    (base : Nat) : ∀ fuel attempt last,
    ∃ r, (geminiRetryGo oracle base fuel attempt last).1 =
      (List.range' attempt r).map (fun j => base * 2 ^ j) := by
  intro fuel
  induction fuel with
  | zero => intro attempt last; exact ⟨0, rfl⟩
  | succ f ih =>
    intro attempt last
    rcases h : oracle attempt with e | sres
    · by_cases hc : isGeminiRateLimit e
      · obtain ⟨r, hr⟩ := ih (attempt + 1) e
        refine ⟨r + 1, ?_⟩
        simp [geminiRetryGo, h, hc, hr, List.range']
      · exact ⟨0, by simp [geminiRetryGo, h, hc]⟩
    · exact ⟨0, by simp [geminiRetryGo, h]⟩

/-- C4 (amended): with the default `maxRetries = 3` there are at most 3
attempts in total, so three consecutive rate-limited failures exhaust the
attempt budget and the wrapper re-throws the last error instead of returning
a success: the grok wrapper sleeps 2000 and 4000 ms and re-throws the third
error (its `attempt < maxRetries - 1` guard skips the delay after the final
attempt), while the gemini wrapper sleeps 2000, 4000 and 8000 ms and then
re-throws.  When an attempt inside the budget succeeds (two rate-limited
failures, then success), the success is returned after delays 2000 and
4000 ms — i.e. after a rate-limited attempt numbered `attempt` the wrapper
waits `base * 2 ^ attempt` before the next serialized attempt; in general the
delay list of any call is `[base * 2^0, ..., base * 2^(r-1)]` for some
`r`. -/
theorem claim_C4_backoff :
    (∀ (oracle : Nat → Except String String) e0 e1 e2,
      oracle 0 = .error e0 → oracle 1 = .error e1 → oracle 2 = .error e2 →
      isGrokRateLimit e0 → isGrokRateLimit e1 → isGrokRateLimit e2 →
      callGrokWithRetries oracle 3 2000 = ([2000, 4000], .error e2)) ∧
    (∀ (oracle : Nat → Except String String) e0 e1 e2,
      oracle 0 = .error e0 → oracle 1 = .error e1 → oracle 2 = .error e2 →
      isGeminiRateLimit e0 → isGeminiRateLimit e1 → isGeminiRateLimit e2 →
      callGeminiWithRetries oracle 3 2000 = ([2000, 4000, 8000], .error e2)) ∧
    (∀ (oracle : Nat → Except String String) e0 e1 sres,
      oracle 0 = .error e0 → oracle 1 = .error e1 → oracle 2 = .ok sres →
      isGrokRateLimit e0 → isGrokRateLimit e1 →
      callGrokWithRetries oracle 3 2000 = ([2000, 4000], .ok sres)) ∧
    (∀ (oracle : Nat → Except String String) e0 e1 sres,
      oracle 0 = .error e0 → oracle 1 = .error e1 → oracle 2 = .ok sres →
      isGeminiRateLimit e0 → isGeminiRateLimit e1 →
      callGeminiWithRetries oracle 3 2000 = ([2000, 4000], .ok sres)) ∧
    (∀ (oracle : Nat → Except String String) (maxR base : Nat),
      ∃ r, (callGrokWithRetries oracle maxR base).1 =
        (List.range' 0 r).map (fun j => base * 2 ^ j)) ∧
    (∀ (oracle : Nat → Except String String) (maxR base : Nat),
      ∃ r, (callGeminiWithRetries oracle maxR base).1 =
        (List.range' 0 r).map (fun j => base * 2 ^ j)) := by
  refine ⟨?_, ?_, ?_, ?_, ?_, ?_⟩
  · intro oracle e0 e1 e2 h0 h1 h2 hr0 hr1 hr2
    simp [callGrokWithRetries, grokRetryGo, h0, h1, h2, hr0, hr1, hr2]
  · intro oracle e0 e1 e2 h0 h1 h2 hr0 hr1 hr2
    simp [callGeminiWithRetries, geminiRetryGo, h0, h1, h2, hr0, hr1, hr2]
  · intro oracle e0 e1 sres h0 h1 h2 hr0 hr1
    simp [callGrokWithRetries, grokRetryGo, h0, h1, h2, hr0, hr1]
  · intro oracle e0 e1 sres h0 h1 h2 hr0 hr1
    simp [callGeminiWithRetries, geminiRetryGo, h0, h1, h2, hr0, hr1]
  · intro oracle maxR base
    exact grokRetryGo_delays oracle maxR base maxR 0
  · intro oracle maxR base
    exact geminiRetryGo_delays oracle base maxR 0 "no error captured"

/-- The rate-limited error message of the C4 counterexample run (contains the
markers both wrappers look for). -/
def msg429 : String :=
  "API request failed: 429 \"code\":429 RESOURCE_EXHAUSTED too many requests"

/-- Oracle whose first three attempts are rate-limited and whose fourth
attempt would succeed. -/
def oracle429 : Nat → Except String String := fun n =>
  if n < 3 then .error msg429 else .ok "recovered"

/-- C4 counterexample: with the defaults (3 attempts, base 2000 ms), three
consecutive rate-limit failures followed by a would-be success do NOT yield
three delayed retries and the success: both wrappers exhaust their three
attempts and re-throw — the grok wrapper after delays [2000, 4000], the
gemini wrapper after delays [2000, 4000, 8000] — and never reach the fourth
attempt. -/
theorem claim_C4_counterexample :
    (callGrokWithRetries oracle429 3 2000).1 = [2000, 4000] ∧
    (callGrokWithRetries oracle429 3 2000).2 = .error msg429 ∧
    (callGeminiWithRetries oracle429 3 2000).1 = [2000, 4000, 8000] ∧
    (callGeminiWithRetries oracle429 3 2000).2 = .error msg429 ∧
    ([2000, 4000] : List Nat) ≠ [2000, 4000, 8000] ∧
    (callGrokWithRetries oracle429 3 2000).2.isOk = false ∧
    (callGeminiWithRetries oracle429 3 2000).2.isOk = false := by
  refine ⟨by rfl, by rfl, by rfl, by rfl, by decide, by rfl, by rfl⟩

/-- Oracle for the C4 witness: two rate-limited attempts, then success. -/
def oracleRecover : Nat → Except String String := fun n =>
  if n < 2 then .error msg429 else .ok "recovered"

theorem claim_C4_backoff_witness :
    oracleRecover 0 = .error msg429 ∧ (isGrokRateLimit msg429 = true) ∧
    callGrokWithRetries oracleRecover 3 2000 = ([2000, 4000], .ok "recovered") ∧
    callGeminiWithRetries oracleRecover 3 2000 = ([2000, 4000], .ok "recovered") := by
  refine ⟨by rfl, by decide, ?_, ?_⟩
  · exact claim_C4_backoff.2.2.1 oracleRecover msg429 msg429 "recovered"
      rfl rfl rfl (by decide) (by decide)
  · exact claim_C4_backoff.2.2.2.1 oracleRecover msg429 msg429 "recovered"
      rfl rfl rfl (by decide) (by decide)

/-! ## C5: empty-reply classification -/

/-- C5 (amended): the per-note OpenRouter parser (src/unnamed/part_001)
classifies an empty reply by its finish reason into three pairwise-distinct
messages — content filter, length/max-tokens truncation, and a generic
fallback.  The batch grok parser (grokService.ts), however, never receives a
finish reason (the wrapper returns only the content string), and fails with
the single fixed message "Invalid response format from API" for every empty
reply, whatever the finish reason was. -/
theorem claim_C5_empty_classification (r : ORResponse)
    (hempty : ∀ c, r.choices.head? = some c → jsTrim c.content = "") :
    (((r.choices.head?).map (fun c => c.finish_reason) = some "content_filter") →
      part001SafeParseJsonResponse r = .error
        "The request was blocked by a content filter. Please modify the input text.") ∧
    ((((r.choices.head?).map (fun c => c.finish_reason) = some "length") ∨
      ((r.choices.head?).map (fun c => c.finish_reason) = some "max_tokens")) →
      part001SafeParseJsonResponse r = .error
        "The response was cut off because it reached the maximum token limit.") ∧
    ((¬((r.choices.head?).map (fun c => c.finish_reason) = some "content_filter") ∧
      ¬((r.choices.head?).map (fun c => c.finish_reason) = some "length") ∧
      ¬((r.choices.head?).map (fun c => c.finish_reason) = some "max_tokens")) →
      part001SafeParseJsonResponse r = .error
        "OpenRouter API returned an empty or invalid response.") ∧
    (("The request was blocked by a content filter. Please modify the input text." : String) ≠
      "The response was cut off because it reached the maximum token limit." ∧
     ("The response was cut off because it reached the maximum token limit." : String) ≠
      "OpenRouter API returned an empty or invalid response." ∧
     ("The request was blocked by a content filter. Please modify the input text." : String) ≠
      "OpenRouter API returned an empty or invalid response.") ∧
    (∀ r2 : ORResponse, grokContentOf r2 = "" →
      grokHandleReply r2 = .error "Invalid response format from API") := by
  refine ⟨?_, ?_, ?_, ⟨by decide, by decide, by decide⟩, ?_⟩
  · intro hfr
    rcases hh : r.choices.head? with _ | c
    · rw [hh] at hfr; cases hfr
    · rw [hh] at hfr
      have hfr2 : c.finish_reason = "content_filter" := by simpa using hfr
      have hct : jsTrim c.content = "" := hempty c hh
      simp [part001SafeParseJsonResponse, hh, hct, hfr2]
  · intro hfr
    rcases hh : r.choices.head? with _ | c
    · rw [hh] at hfr; simp at hfr
    · rw [hh] at hfr
      have hct : jsTrim c.content = "" := hempty c hh
      rcases hfr with hfr | hfr
      · have hfr2 : c.finish_reason = "length" := by simpa using hfr
        simp [part001SafeParseJsonResponse, hh, hct, hfr2]
      · have hfr2 : c.finish_reason = "max_tokens" := by simpa using hfr
        simp [part001SafeParseJsonResponse, hh, hct, hfr2]
  · rintro ⟨hf1, hf2, hf3⟩
    rcases hh : r.choices.head? with _ | c
    · simp [part001SafeParseJsonResponse, hh]
    · rw [hh] at hf1 hf2 hf3
      have hn1 : c.finish_reason ≠ "content_filter" := by
        intro hx; exact hf1 (by simp [hx])
      have hn2 : c.finish_reason ≠ "length" := by
        intro hx; exact hf2 (by simp [hx])
      have hn3 : c.finish_reason ≠ "max_tokens" := by
        intro hx; exact hf3 (by simp [hx])
      have hct : jsTrim c.content = "" := hempty c hh
      simp [part001SafeParseJsonResponse, hh, hct, hn1, hn2, hn3]
  · intro r2 h2
    simp only [grokHandleReply, h2]
    rfl

/-- Gateway reply with empty content and finish reason `"length"`. -/
def rLen : ORResponse := ⟨[⟨"", "length"⟩]⟩

/-- Gateway reply with empty content and finish reason `"content_filter"`. -/
def rFilter : ORResponse := ⟨[⟨"", "content_filter"⟩]⟩

/-- C5 counterexample: the grok-service parser produces one and the same
generic message for an empty reply finished with `"length"` and one finished
with `"content_filter"` — the message is not determined by the finish reason
and the truncation / content-policy cases are not distinct there. -/
theorem claim_C5_counterexample :
    grokHandleReply rLen = .error "Invalid response format from API" ∧
    grokHandleReply rFilter = .error "Invalid response format from API" ∧
    ("Invalid response format from API" : String) ≠
      "The response was cut off because it reached the maximum token limit." ∧
    ("Invalid response format from API" : String) ≠
      "The request was blocked by a content filter. Please modify the input text." := by
  refine ⟨by rfl, by rfl, by decide, by decide⟩

theorem claim_C5_empty_classification_witness :
    jsTrim ("" : String) = "" ∧
    part001SafeParseJsonResponse rLen = .error
      "The response was cut off because it reached the maximum token limit." ∧
    part001SafeParseJsonResponse rFilter = .error
      "The request was blocked by a content filter. Please modify the input text." := by
  refine ⟨by rfl, ?_, ?_⟩
  · exact (claim_C5_empty_classification rLen
      (fun c hc => by cases hc; rfl)).2.1 (Or.inl rfl)
  · exact (claim_C5_empty_classification rFilter
      (fun c hc => by cases hc; rfl)).1 rfl

/-! ## C8 and C10: cross-reference resolution -/

theorem filter_key_eq_singleton {notes : List Note} {k : String} {n' : Note}
    (hnd : (notes.map (fun n => normTitle n.title)).Nodup)
    (hmem : n' ∈ notes) (hk : normTitle n'.title = k) :
    notes.filter (fun n => normTitle n.title = k) = [n'] := by
  induction notes with
  | nil => cases hmem
  | cons n0 rest ih =>
    rw [List.map_cons, List.nodup_cons] at hnd
    rcases List.mem_cons.mp hmem with h | h
    · subst h
      rw [List.filter_cons_of_pos (by simpa using hk)]
      have hrest : rest.filter (fun n => normTitle n.title = k) = [] := by
        rw [List.filter_eq_nil_iff]
        intro x hx hfx
        apply hnd.1
        have hxk : normTitle x.title = k := by simpa using hfx
        rw [hk, ← hxk]
        exact List.mem_map_of_mem _ hx
      rw [hrest]
    · have hne : ¬(normTitle n0.title = k) := by
        intro hx
        apply hnd.1
        rw [hx, ← hk]
        exact List.mem_map_of_mem _ h
      rw [List.filter_cons_of_neg (by simpa using hne)]
      exact ih hnd.2 h

theorem find_key_eq_of_nodup {notes : List Note} {k : String} {n' : Note}
    (hnd : (notes.map (fun n => normTitle n.title)).Nodup)
    (hmem : n' ∈ notes) (hk : normTitle n'.title = k) :
    notes.find? (fun n => normTitle n.title = k) = some n' := by
  induction notes with
  | nil => cases hmem
  | cons n0 rest ih =>
    rw [List.map_cons, List.nodup_cons] at hnd
    rcases List.mem_cons.mp hmem with h | h
    · subst h
      exact List.find?_cons_of_pos _ (by simpa using hk)
    · have hne : ¬(normTitle n0.title = k) := by
        intro hx
        apply hnd.1
        rw [hx, ← hk]
        exact List.mem_map_of_mem _ h
      rw [List.find?_cons_of_neg _ (by simpa using hne)]
      exact ih hnd.2 h

/-- C8: with distinct normalized titles, a marker `[[T]]` in a note's content
resolves — by trimmed, case-insensitive comparison — to the id of the other
note whose title matches `T`, producing exactly that edge in the graph; a
marker whose `T` matches no title resolves to nothing (the lookup is `none`,
the click handler selects nothing, no error value exists in the model) and
every produced edge comes from a marker with a matching title, so a dangling
marker contributes no edge; clicking a link with a matching title selects
that note's id. -/
theorem claim_C8_crossref_resolution (notes : List Note)
    (hnd : (notes.map (fun n => normTitle n.title)).Nodup) :
    (∀ note ∈ notes, ∀ T ∈ findMarkers note.content, ∀ n' ∈ notes,
      normTitle n'.title = normTitle T → n'.id ≠ note.id →
      (note.id, n'.id) ∈ buildLinks notes) ∧
    (∀ T, (∀ n' ∈ notes, normTitle n'.title ≠ normTitle T) →
      titleToId notes (normTitle T) = none ∧
      handleSelectNoteByTitle Status.completed notes T = none) ∧
    (∀ p ∈ buildLinks notes, ∃ note, note ∈ notes ∧ p.1 = note.id ∧
      ∃ T ∈ findMarkers note.content,
        titleToId notes (normTitle T) = some p.2 ∧ p.2 ≠ note.id) ∧
    (∀ T n', n' ∈ notes → normTitle n'.title = normTitle T →
      handleSelectNoteByTitle Status.completed notes T = some n'.id) := by
  refine ⟨?_, ?_, ?_, ?_⟩
  · intro note hnote T hT n' hn' hk hne
    refine List.mem_flatMap.mpr ⟨note, hnote, ?_⟩
    refine List.mem_filterMap.mpr ⟨T, hT, ?_⟩
    have hti : titleToId notes (normTitle T) = some n'.id := by
      rw [titleToId, filter_key_eq_singleton hnd hn' hk]
      rfl
    rw [hti]
    simp [hne]
  · intro T hnone
    have hfil : notes.filter (fun n => normTitle n.title = normTitle T) = [] := by
      rw [List.filter_eq_nil_iff]
      intro x hx hfx
      exact hnone x hx (by simpa using hfx)
    constructor
    · rw [titleToId, hfil]; rfl
    · have hfind : notes.find? (fun n => normTitle n.title = normTitle T) = none :=
        List.find?_eq_none.mpr (fun x hx hpx =>
          hnone x hx (by simpa using hpx))
      rw [handleSelectNoteByTitle, if_neg (by simp), hfind]
      rfl
  · intro p hp
    rcases List.mem_flatMap.mp hp with ⟨note, hmem, hlk⟩
    rcases List.mem_filterMap.mp hlk with ⟨T, hT, hf⟩
    rcases hti : titleToId notes (normTitle T) with _ | tid
    · rw [hti] at hf; cases hf
    · rw [hti] at hf
      have hf2 : (if tid ≠ note.id then some (note.id, tid) else none) = some p := hf
      by_cases hne : tid ≠ note.id
      · rw [if_pos hne] at hf2
        have h2 : (note.id, tid) = p := Option.some.inj hf2
        refine ⟨note, hmem, ?_, T, hT, ?_, ?_⟩
        · rw [← h2]
        · rw [← h2]; exact hti
        · rw [← h2]; exact hne
      · rw [if_neg hne] at hf2; cases hf2
  · intro T n' hmem hk
    rw [handleSelectNoteByTitle, if_neg (by simp),
      find_key_eq_of_nodup hnd hmem hk]
    rfl

/-- Note "A" of the C8 witness graph; its content references note "B". -/
def noteA : Note := ⟨"note_000", "A", "alpha sees [[ b ]] here", ["qa"], "p. 1"⟩

/-- Note "B" of the C8 witness graph. -/
def noteB : Note := ⟨"note_001", "B", "beta basics", ["qb"], "p. 2"⟩

/-- The two-note graph of the C8 witness. -/
def notesAB : List Note := [noteA, noteB]

theorem claim_C8_crossref_resolution_witness :
    ((notesAB.map (fun n => normTitle n.title)).Nodup) ∧
    ("note_000", "note_001") ∈ buildLinks notesAB ∧
    handleSelectNoteByTitle Status.completed notesAB "C" = none := by
  refine ⟨by decide, ?_, ?_⟩
  · exact (claim_C8_crossref_resolution notesAB (by decide)).1 noteA (by decide)
      " b " (by decide) noteB (by decide) (by decide) (by decide)
  · exact ((claim_C8_crossref_resolution notesAB (by decide)).2.1 "C"
      (by decide)).2

/-- C10: the graph never contains a self-edge — a marker resolving to the
note's own id is dropped — and the per-note interlink strategy never offers a
note its own title as a permissible link target. -/
theorem claim_C10_no_self_links :
    (∀ (notes : List Note), ∀ p ∈ buildLinks notes, p.1 ≠ p.2) ∧
    (∀ (noteToLink : UnlinkedNote) (allTitles : List String),
      noteToLink.title ∉ interlinkTargets noteToLink allTitles) := by
  constructor
  · intro notes p hp
    rcases List.mem_flatMap.mp hp with ⟨note, _, hlk⟩
    rcases List.mem_filterMap.mp hlk with ⟨T, _, hf⟩
    rcases hti : titleToId notes (normTitle T) with _ | tid
    · rw [hti] at hf; cases hf
    · rw [hti] at hf
      have hf2 : (if tid ≠ note.id then some (note.id, tid) else none) = some p := hf
      by_cases hne : tid ≠ note.id
      · rw [if_pos hne] at hf2
        have h2 : (note.id, tid) = p := Option.some.inj hf2
        rw [← h2]
        exact fun hx => hne hx.symm
      · rw [if_neg hne] at hf2; cases hf2
  · intro note allTitles hmem
    have h := List.mem_filter.mp hmem
    simp at h

theorem claim_C10_no_self_links_witness :
    (("note_000", "note_001") : String × String).1 ≠
      ("note_000", "note_001").2 ∧
    "A" ∉ interlinkTargets ⟨"A", "c", [], "p"⟩ ["A", "B"] :=
  ⟨claim_C10_no_self_links.1 notesAB ("note_000", "note_001") (by decide),
    claim_C10_no_self_links.2 ⟨"A", "c", [], "p"⟩ ["A", "B"]⟩
